import Mathlib

/-!
Shallow embedding of the transaction-extraction core of the
AI-Powered-Financial-Entry-Automation-Tool repository
(`src/financial_entry_automation/{cleaning,pdf_extractor,validation}.py`
and the export gate of `app.py`), together with theorems settling the
frozen claims about it.

Strings are modelled as Lean `String`s; string-level primitives of the
Python code (strip, lower, split, substring tests, the regexes `DATE_IN`,
`NUMERIC_OK`, `SRNO_LINE`, `AMOUNT_TOKEN` and the noise-filter patterns)
are hand-translated into executable functions on `List Char`.
Python's `str.lower`/whitespace handling is modelled on the ASCII
fragment, which is the fragment every comparison constant of the source
lives in (the Devanagari constants are unaffected by `lower`).
-/

namespace FEA

/-- Python whitespace (`\s` on the ASCII fragment, also what `str.strip`
removes for ASCII input). -/
def isSpaceC (c : Char) : Bool :=
  c = ' ' || c = '\t' || c = '\n' || c = '\r' || c = '\x0b' || c = '\x0c'

/-- ASCII decimal digit (`\d` on the ASCII fragment). -/
def isDigitC (c : Char) : Bool := '0' ≤ c && c ≤ '9'

/-- ASCII lowering, modelling `str.lower` (identity off A-Z, in particular
on the Devanagari constants of the noise filter). -/
def toLowerC (c : Char) : Char :=
  if 'A' ≤ c && c ≤ 'Z' then Char.ofNat (c.toNat + 32) else c

def lowerL (cs : List Char) : List Char := cs.map toLowerC

/-- Left trim: drop leading whitespace. -/
def trimL (cs : List Char) : List Char := cs.dropWhile isSpaceC

/-- Right trim: drop trailing whitespace (structural form of
`dropWhileEnd isSpaceC`). -/
def trimR : List Char → List Char
  | [] => []
  | c :: cs =>
    match trimR cs with
    | [] => if isSpaceC c then [] else [c]
    | d :: ds => c :: d :: ds

/-- `str.strip()` on a character list. -/
def trimC (cs : List Char) : List Char := trimR (trimL cs)

/-- `str.strip()`. -/
def strip (s : String) : String := ⟨trimC s.data⟩

/-- Python `needle in hay` substring test. -/
def containsSub : List Char → List Char → Bool
  | [], n => n.isEmpty
  | c :: t, n => n.isPrefixOf (c :: t) || containsSub t n

/-- `str.startswith`. -/
def startsWithL (l p : List Char) : Bool := p.isPrefixOf l

/-- One step of `str.split()` (whitespace split, no empty tokens),
consumed by `foldr`. -/
def splitWsAux (c : Char) (acc : List Char × List (List Char)) :
    List Char × List (List Char) :=
  if isSpaceC c then ([], if acc.1.isEmpty then acc.2 else acc.1 :: acc.2)
  else (c :: acc.1, acc.2)

/-- `str.split()`: split on whitespace runs, discarding empty tokens. -/
def splitWs (cs : List Char) : List (List Char) :=
  let r := cs.foldr splitWsAux ([], [])
  if r.1.isEmpty then r.2 else r.1 :: r.2

/-- `" ".join`. -/
def joinSp (toks : List (List Char)) : List Char := List.intercalate [' '] toks

/-- One step of newline splitting, consumed by `foldr`. -/
def splitLinesAux (c : Char) (acc : List Char × List (List Char)) :
    List Char × List (List Char) :=
  if c = '\n' then ([], acc.1 :: acc.2) else (c :: acc.1, acc.2)

/-- `str.splitlines()` for `\n`-separated text.  A trailing newline yields a
trailing empty segment here where Python yields none, and a bare `\r` is not
a separator; both differences are erased by the strip-and-drop-empties step
of `_extract_from_text` that always follows this function (`\r` is stripped
as whitespace). -/
def splitLines (cs : List Char) : List (List Char) :=
  let r := cs.foldr splitLinesAux ([], [])
  r.1 :: r.2

/-- Decimal digit value of a digit list, most significant first
(semantics of `int(...)` on a digit string). -/
def digitsVal (ds : List Char) : Nat :=
  ds.foldl (fun a c => 10 * a + (c.toNat - 48)) 0

/-- Python `int(str)`: optional surrounding whitespace, optional sign, a
nonempty digit run.  (Underscore digit grouping of `int` is not modelled;
no call site produces it.)  `none` models the `ValueError` raise. -/
def parseIntCore : List Char → Option Int
  | [] => none
  | c :: ds =>
    if c = '-' then
      (if !ds.isEmpty && ds.all isDigitC then some (-(digitsVal ds : Int)) else none)
    else if c = '+' then
      (if !ds.isEmpty && ds.all isDigitC then some ((digitsVal ds : Int)) else none)
    else if (c :: ds).all isDigitC then some ((digitsVal (c :: ds) : Int)) else none

def parseIntStr (s : String) : Option Int := parseIntCore (trimC s.data)

/-- Digit character of `n % 10`. -/
def digitC (n : Nat) : Char :=
  match n with
  | 0 => '0' | 1 => '1' | 2 => '2' | 3 => '3' | 4 => '4'
  | 5 => '5' | 6 => '6' | 7 => '7' | 8 => '8' | 9 => '9'
  | _ => '*'

/-- Auxiliary decimal rendering: prepend the digits of `n` to `acc`.
The first argument is fuel (any value `≥ n` yields the digits of `n`);
structural recursion on fuel keeps the function kernel-reducible. -/
def natDigitsAux : Nat → Nat → List Char → List Char
  | 0, _, acc => acc
  | fuel + 1, n, acc =>
    if n = 0 then acc else natDigitsAux fuel (n / 10) (digitC (n % 10) :: acc)

/-- Decimal rendering of a natural number (Python `str(nat)`). -/
def natDigits (n : Nat) : List Char :=
  if n = 0 then ['0'] else natDigitsAux n n []

/-- Decimal rendering of an integer (Python `str(int)`, also what pandas
`astype(str)` produces for an `int64` cell). -/
def intStr (n : Int) : String :=
  if n < 0 then ⟨'-' :: natDigits n.natAbs⟩ else ⟨natDigits n.natAbs⟩

/-! ## `cleaning.py` -/

/-- A `DATE_IN` separator: a dash or a slash. -/
def isSepC (c : Char) : Bool := c = '-' || c = '/'

/-- The regex `DATE_IN` (anchored: optional whitespace, two digits, dash or
slash, two digits, dash or slash, four digits, optional whitespace),
returning the numeric day/month/year groups. -/
def parseDmyCore : List Char → Option (Nat × Nat × Nat)
  | d1 :: d2 :: s1 :: m1 :: m2 :: s2 :: y1 :: y2 :: y3 :: y4 :: rest =>
    if isDigitC d1 && isDigitC d2 && isSepC s1 && isDigitC m1 && isDigitC m2 &&
       isSepC s2 && isDigitC y1 && isDigitC y2 && isDigitC y3 && isDigitC y4 &&
       rest.all isSpaceC then
      some (digitsVal [d1, d2], digitsVal [m1, m2], digitsVal [y1, y2, y3, y4])
    else none
  | _ => none

def parseDmy (cs : List Char) : Option (Nat × Nat × Nat) :=
  parseDmyCore (cs.dropWhile isSpaceC)

/-- Gregorian leap year, as `datetime` uses it. -/
def isLeap (y : Nat) : Bool := y % 4 = 0 && (y % 100 ≠ 0 || y % 400 = 0)

/-- Days in a month, as `datetime` uses it. -/
def daysInMonth (y m : Nat) : Nat :=
  if m = 2 then (if isLeap y then 29 else 28)
  else if m = 4 || m = 6 || m = 9 || m = 11 then 30
  else 31

/-- Validity domain of `datetime(year, month, day)` (`MINYEAR = 1`,
`MAXYEAR = 9999`); outside it the constructor raises `ValueError`. -/
def dateOk (d m y : Nat) : Bool :=
  1 ≤ y && y ≤ 9999 && 1 ≤ m && m ≤ 12 && 1 ≤ d && d ≤ daysInMonth y m

/-- Two-digit zero-padded rendering (strftime `%d` / `%m` for values `< 100`). -/
def pad2 (n : Nat) : List Char := [digitC (n / 10), digitC (n % 10)]

/-- Four-digit zero-padded rendering (strftime `%Y` for values `< 10000`,
per the documented zero-padded behaviour). -/
def pad4 (n : Nat) : List Char :=
  [digitC (n / 1000), digitC (n / 100 % 10), digitC (n / 10 % 10), digitC (n % 10)]

/-- `dt.strftime("%d/%m/%Y")`. -/
def renderDmy (d m y : Nat) : List Char :=
  pad2 d ++ '/' :: pad2 m ++ '/' :: pad4 y

/-- `cleaning.normalize_date`: anchored `DD-MM-YYYY` / `DD/MM/YYYY` parse,
calendar validation through `datetime`, canonical `DD/MM/YYYY` output;
`none` models the `None` returns. -/
def normalizeDate (s : String) : Option String :=
  match parseDmy s.data with
  | none => none
  | some (d, m, y) => if dateOk d m y then some ⟨renderDmy d m y⟩ else none

/-- `c != '-'`, the dash-removal filter of `clean_cheque_number`. -/
def notDash (c : Char) : Bool := c ≠ '-'

/-- `c != ','`, the comma-removal filter of `clean_amount`. -/
def notComma (c : Char) : Bool := c ≠ ','

/-- `cleaning.clean_cheque_number`: `'-'`/empty after trim map to empty,
otherwise dashes removed and the result trimmed. -/
def cleanChequeNumber (chq : String) : String :=
  let s := trimC chq.data
  if s = ['-'] || s = [] then ""
  else ⟨trimC (s.filter notDash)⟩

/-- `cleaning.clean_amount`: trim; with `dash_to_empty` a lone `'-'` maps to
empty; commas removed; result trimmed. -/
def cleanAmount (val : String) (dashToEmpty : Bool) : String :=
  let s := trimC val.data
  if dashToEmpty && s = ['-'] then ""
  else ⟨trimC (s.filter notComma)⟩

/-- `cleaning.clean_description`: trim only. -/
def cleanDescription (desc : String) : String := ⟨trimC desc.data⟩

/-- Body of `NUMERIC_OK = ^\d+(\.\d+)?$`. -/
def numericOk (cs : List Char) : Bool :=
  let ds := cs.takeWhile isDigitC
  let rest := cs.drop ds.length
  !ds.isEmpty &&
    (rest.isEmpty ||
      (match rest with
       | '.' :: fs => !fs.isEmpty && fs.all isDigitC
       | _ => false))

/-- `cleaning.validate_numeric`: empty is valid, otherwise `NUMERIC_OK`
must match the whole value. -/
def validateNumeric (s : String) : Bool :=
  s.data.isEmpty || numericOk s.data

/-! ## Shared value types (`utils.py`) -/

/-- Severity of a `ValidationIssue`. -/
inductive Level where
  | warning
  | error
deriving DecidableEq, Repr

/-- `utils.ValidationIssue`.  The `context` diagnostic payload (an optional
dict carried for display only, never read by the core) is not modelled. -/
structure Issue where
  serialNo : Option Int
  level : Level
  message : String
deriving DecidableEq, Repr

/-- One transaction row as the extractor builds it: the eight schema
fields, all raw text.  (The transient `_page` tag added on the table path
is dropped by the final `df[EXPECTED_COLS]` projection and not modelled.) -/
structure TxnRec where
  serialNo : String
  transactionDate : String
  valueDate : String
  description : String
  chequeNumber : String
  debit : String
  credit : String
  balance : String
deriving DecidableEq, Repr

/-! ## `pdf_extractor.py`: text fallback parser -/

/-- The regex `AMOUNT_TOKEN`: digits/commas with an optional two-decimal
suffix, or a lone dash. -/
def isDigitOrComma (c : Char) : Bool := isDigitC c || c = ','

def isAmountToken (t : List Char) : Bool :=
  t = ['-'] ||
  (!t.isEmpty && t.all isDigitOrComma) ||
  (match t.reverse with
   | b :: a :: '.' :: rest =>
     isDigitC a && isDigitC b && !rest.isEmpty && rest.all isDigitOrComma
   | _ => false)

/-- A ten-character date token (two digits, separator, two digits,
separator, four digits), as matched inside `SRNO_LINE`. -/
def parseDateTok : List Char → Option (List Char × List Char)
  | a :: b :: s1 :: c :: d :: s2 :: e :: f :: g :: h :: rest =>
    if isDigitC a && isDigitC b && isSepC s1 && isDigitC c && isDigitC d &&
       isSepC s2 && isDigitC e && isDigitC f && isDigitC g && isDigitC h then
      some ([a, b, s1, c, d, s2, e, f, g, h], rest)
    else none
  | _ => none

/-- The regex `SRNO_LINE`: optional whitespace, a one-to-four digit serial,
whitespace, a date token, whitespace, an optional second date token that
must itself be followed by whitespace, then the free remainder.  Returns
`(serial digits, first date, optional second date, remainder)`.  The
backtracking analysis: the serial must be the maximal digit run (a longer
run cannot shrink, since the following `\s+` would face a digit), each date
token is rigid, and the trailing `(.*)` absorbs everything, so the greedy
first attempt is the unique match. -/
def matchSrnoLine (cs : List Char) : Option (List Char × List Char × Option (List Char) × List Char) :=
  let cs1 := cs.dropWhile isSpaceC
  let sr := cs1.takeWhile isDigitC
  let afterSr := cs1.drop sr.length
  if sr.length < 1 || 4 < sr.length then none
  else
    match afterSr with
    | [] => none
    | c :: _ =>
      if !isSpaceC c then none
      else
        let rest1 := afterSr.dropWhile isSpaceC
        match parseDateTok rest1 with
        | none => none
        | some (d1, after1) =>
          match after1 with
          | [] => none
          | c2 :: _ =>
            if !isSpaceC c2 then none
            else
              let rest2 := after1.dropWhile isSpaceC
              match parseDateTok rest2 with
              | some (d2, after2) =>
                match after2 with
                | c3 :: _ =>
                  if isSpaceC c3 then some (sr, d1, some d2, after2.dropWhile isSpaceC)
                  else some (sr, d1, none, rest2)
                | [] => some (sr, d1, none, rest2)
              | none => some (sr, d1, none, rest2)

/-- The timestamp-footer regex of `is_noise`:
two digits, slash, two digits, slash, four digits, whitespace,
`HH:MM:SS`, optional whitespace, `am` or `pm`, end. -/
def isTimestampFooter (l : List Char) : Bool :=
  match l with
  | d1 :: d2 :: '/' :: m1 :: m2 :: '/' :: y1 :: y2 :: y3 :: y4 :: rest =>
    (isDigitC d1 && isDigitC d2 && isDigitC m1 && isDigitC m2 &&
     isDigitC y1 && isDigitC y2 && isDigitC y3 && isDigitC y4) &&
    (match rest with
     | c :: _ =>
       isSpaceC c &&
       (match rest.dropWhile isSpaceC with
        | h1 :: h2 :: ':' :: n1 :: n2 :: ':' :: s1 :: s2 :: tail =>
          (isDigitC h1 && isDigitC h2 && isDigitC n1 && isDigitC n2 &&
           isDigitC s1 && isDigitC s2) &&
          (match tail.dropWhile isSpaceC with
           | [a, mm] => (a = 'a' || a = 'p') && mm = 'm'
           | _ => false)
        | _ => false)
     | [] => false)
  | _ => false

/-- `_extract_from_text.is_noise`: the boilerplate line filter. -/
def isNoise (line : List Char) : Bool :=
  let l := trimC (lowerL line)
  if l.isEmpty then true
  else if containsSub l "account statement from".data then true
  else if startsWithL l "account statement".data || startsWithL l "page".data ||
          startsWithL l "this is a computer-generated".data ||
          startsWithL l "statement is generated".data then true
  else if containsSub l "page ".data && containsSub l " of ".data then true
  else if containsSub l "bob world".data then true
  else if isTimestampFooter l then true
  else if containsSub l "खाता".data && containsSub l "से".data && containsSub l "तक".data then true
  else if containsSub l "sr.no".data ||
          (containsSub l "debit".data && containsSub l "credit".data &&
           containsSub l "balance".data) then true
  else if (containsSub l "चेक".data && containsSub l "नामे".data && containsSub l "जमा".data) ||
          (containsSub l "लेनदेन".data && containsSub l "ववरण".data) then true
  else false

/-- `_looks_like_header_row([ln])` as invoked from the fallback parser on a
single-line row. -/
def looksLikeHeaderLine (line : List Char) : Bool :=
  let j := lowerL line
  containsSub j "sr.no".data || containsSub j "transaction".data ||
  containsSub j "value".data || containsSub j "description".data

/-- `clean_description(desc).lower() == "opening balance"`, the discard
test of `flush_current` and `_normalize_table_row`. -/
def isOpeningBalanceDesc (desc : String) : Bool :=
  lowerL (cleanDescription desc).data = "opening balance".data

/-- Parser state of `_extract_from_text`: emitted rows, issues, the open
record, and the pre-row description buffer. -/
structure PState where
  rows : List TxnRec
  issues : List Issue
  current : Option TxnRec
  prebuffer : List (List Char)
deriving DecidableEq, Repr

/-- `flush_current`: emit the open record unless its description is
`opening balance`. -/
def flushCurrent (st : PState) : PState :=
  match st.current with
  | none => st
  | some r =>
    if isOpeningBalanceDesc r.description then { st with current := none }
    else { st with rows := st.rows ++ [r], current := none }

/-- The backward amount scan of `_extract_from_text`: walk the reversed
token list collecting up to three `AMOUNT_TOKEN` matches, stopping at the
first non-match; returns `(desc_tokens, amt_tokens)`, both in forward
order. -/
def scanBack : List (List Char) → List (List Char) → List (List Char) × List (List Char)
  | [], acc => ([], acc)
  | t :: rest, acc =>
    if acc.length < 3 && isAmountToken t then scanBack rest (t :: acc)
    else ((t :: rest).reverse, acc)

def splitAmounts (tokens : List (List Char)) : List (List Char) × List (List Char) :=
  scanBack tokens.reverse []

/-- Python `str.isdigit` (ASCII fragment): nonempty, all digits. -/
def isDigitsStr (t : List Char) : Bool := !t.isEmpty && t.all isDigitC

/-- The warning message of the short amount scan. -/
def amountWarnMsg : String :=
  "Could not reliably detect trailing Debit/Credit/Balance tokens in fallback text parse."

/-- The loop body of `_extract_from_text` for one stripped, nonempty line. -/
def processLine (st : PState) (ln : List Char) : PState :=
  if isNoise ln || looksLikeHeaderLine ln then st
  else
    match matchSrnoLine ln with
    | some (sr, txnDate, valDate, rest) =>
      let st := flushCurrent st
      if containsSub (lowerL ln) "opening balance".data then
        { st with prebuffer := [], current := none }
      else
        let tokens := splitWs rest
        let scanned := splitAmounts tokens
        let cheqSplit :=
          match scanned.1.getLast? with
          | some last =>
            if isDigitsStr last && last.length ≤ 12 then
              ((⟨last⟩ : String), scanned.1.dropLast)
            else (("" : String), scanned.1)
          | none => (("" : String), scanned.1)
        let descParts :=
          st.prebuffer ++ (if cheqSplit.2.isEmpty then [] else [joinSp cheqSplit.2])
        let desc := trimC (joinSp (descParts.filter (fun p => !p.isEmpty)))
        let base : TxnRec :=
          { serialNo := ⟨sr⟩, transactionDate := ⟨txnDate⟩,
            valueDate := ⟨valDate.getD []⟩, description := ⟨desc⟩,
            chequeNumber := cheqSplit.1, debit := "", credit := "", balance := "" }
        match scanned.2 with
        | [a, b, c] =>
          { st with prebuffer := [],
                    current := some { base with debit := ⟨a⟩, credit := ⟨b⟩, balance := ⟨c⟩ } }
        | _ =>
          { st with prebuffer := [],
                    issues := st.issues ++
                      [⟨some (digitsVal sr : Int), Level.warning, amountWarnMsg⟩],
                    current := some base }
    | none =>
      match st.current with
      | none => { st with prebuffer := st.prebuffer ++ [ln] }
      | some r =>
        let r' : TxnRec := { r with description := ⟨trimC (r.description.data ++ ' ' :: ln)⟩ }
        { st with current := some r' }

/-- The stripped, nonempty lines of a page text. -/
def linesOf (text : String) : List (List Char) :=
  ((splitLines text.data).map trimC).filter (fun l => !l.isEmpty)

/-- `pdf_extractor._extract_from_text`. -/
def extractFromText (text : String) : List TxnRec × List Issue :=
  let st := (linesOf text).foldl processLine ⟨[], [], none, []⟩
  let st := flushCurrent st
  (st.rows, st.issues)

/-! ## `pdf_extractor._clean_and_standardize` -/

/-- A standardized row.  `Serial No` is the integer produced by
`astype(int)`; `Transaction Date` is the (non-null, by the drop step)
normalized date; `Value Date` keeps the `None` of a failed normalization
as `none`. -/
structure CleanRec where
  serialNo : Int
  transactionDate : String
  valueDate : Option String
  description : String
  chequeNumber : String
  debit : String
  credit : String
  balance : String
deriving DecidableEq, Repr

/-- A row after the per-field cleaning applications, before the drop. -/
structure MidRec where
  serialNo : String
  transactionDate : Option String
  valueDate : Option String
  description : String
  chequeNumber : String
  debit : String
  credit : String
  balance : String
deriving DecidableEq, Repr

/-- The per-column cleaning applications of `_clean_and_standardize`. -/
def cleanFields (r : TxnRec) : MidRec :=
  { serialNo := strip r.serialNo
    transactionDate := normalizeDate r.transactionDate
    valueDate := normalizeDate r.valueDate
    description := cleanDescription r.description
    chequeNumber := cleanChequeNumber r.chequeNumber
    debit := cleanAmount r.debit true
    credit := cleanAmount r.credit true
    balance := cleanAmount r.balance false }

/-- The drop condition: missing serial or failed date normalization. -/
def isBadRow (m : MidRec) : Bool :=
  m.serialNo = "" || m.transactionDate = none

/-- The drop warning message. -/
def dropWarnMsg : String :=
  "Dropping a row due to missing Serial No or invalid Transaction Date."

/-- `astype(int)` on one surviving row (`none` models the raise on a
non-integer serial, which would escape `_clean_and_standardize`). -/
def toClean (m : MidRec) : Option CleanRec :=
  match parseIntStr m.serialNo, m.transactionDate with
  | some n, some t =>
    some { serialNo := n, transactionDate := t, valueDate := m.valueDate,
           description := m.description, chequeNumber := m.chequeNumber,
           debit := m.debit, credit := m.credit, balance := m.balance }
  | _, _ => none

def toCleanAll : List MidRec → Option (List CleanRec)
  | [] => some []
  | m :: ms =>
    match toClean m, toCleanAll ms with
    | some c, some cs => some (c :: cs)
    | _, _ => none

/-- Insertion by ascending serial number. -/
def insertBySerial (c : CleanRec) : List CleanRec → List CleanRec
  | [] => [c]
  | d :: ds => if c.serialNo ≤ d.serialNo then c :: d :: ds else d :: insertBySerial c ds

/-- `df.sort_values("Serial No")`: an ascending sort by serial number.
pandas' default sort kind (`quicksort`) fixes no order between rows with
equal serial numbers; this insertion sort realizes one admissible order.
No theorem below depends on the order chosen for equal serials. -/
def sortBySerial : List CleanRec → List CleanRec
  | [] => []
  | c :: cs => insertBySerial c (sortBySerial cs)

/-- `df.drop_duplicates(subset=["Serial No"], keep="first")`: keep the
first occurrence of each serial number in the current order. -/
def dedupeGo (seen : List Int) : List CleanRec → List CleanRec
  | [] => []
  | c :: cs =>
    if c.serialNo ∈ seen then dedupeGo seen cs
    else c :: dedupeGo (c.serialNo :: seen) cs

def dedupeBySerial (cs : List CleanRec) : List CleanRec := dedupeGo [] cs

/-- `pdf_extractor._clean_and_standardize`: per-field cleaning, the
malformed-row drop with its warnings, `astype(int)` on serials (`none` on
the raise), the defensive opening-balance re-filter, sort by serial and
de-duplication.  Returns the standardized rows and the issues this step
appended. -/
def cleanAndStandardize (rs : List TxnRec) : Option (List CleanRec × List Issue) :=
  let mids := rs.map cleanFields
  let bad := mids.filter (fun m => isBadRow m)
  let good := mids.filter (fun m => !isBadRow m)
  let issues := bad.map (fun m => (⟨parseIntStr m.serialNo, Level.warning, dropWarnMsg⟩ : Issue))
  match toCleanAll good with
  | none => none
  | some cs =>
    let kept := cs.filter (fun c => !(lowerL c.description.data = "opening balance".data : Bool))
    some (dedupeBySerial (sortBySerial kept), issues)

/-- `astype(str)` on a standardized frame, as the second application of
`_clean_and_standardize` performs it: the integer serial renders in
decimal, a `None` value date renders as the string `"None"`. -/
def rawOfClean (c : CleanRec) : TxnRec :=
  { serialNo := intStr c.serialNo
    transactionDate := c.transactionDate
    valueDate := c.valueDate.getD "None"
    description := c.description
    chequeNumber := c.chequeNumber
    debit := c.debit
    credit := c.credit
    balance := c.balance }

/-- `_clean_and_standardize` applied a second time, to its own output. -/
def restandardize (cs : List CleanRec) : Option (List CleanRec × List Issue) :=
  cleanAndStandardize (cs.map rawOfClean)

/-! ## `validation.py` -/

/-- `validation.summarize_issues`. -/
structure Summary where
  total : Nat
  errors : Nat
  warnings : Nat
deriving DecidableEq, Repr

def summarizeIssues (issues : List Issue) : Summary :=
  { total := issues.length
    errors := (issues.filter (fun i => i.level = Level.error)).length
    warnings := (issues.filter (fun i => i.level = Level.warning)).length }

/-- The export gate of `app.py`: export is offered unless
`summary["errors"] > 0`. -/
def exportAllowed (s : Summary) : Bool := !(0 < s.errors : Bool)

/-- `astype(int)` over the serial column; `none` models the raise caught
by `validate_dataframe`'s `except`. -/
def traverseParse : List TxnRec → Option (List Int)
  | [] => some []
  | r :: rs =>
    match parseIntStr r.serialNo, traverseParse rs with
    | some n, some ns => some (n :: ns)
    | _, _ => none

/-- `int(ser.min()), int(ser.max())` — `none` on an empty column, where
`int(nan)` raises into the same `except` branch. -/
def serBounds : List Int → Option (Int × Int)
  | [] => none
  | s :: rest => some (rest.foldl min s, rest.foldl max s)

/-- `list(range(min, max + 1))` over `Int`. -/
def intRange (lo hi : Int) : List Int :=
  (List.range (hi + 1 - lo).toNat).map (fun k => lo + (k : Int))

def notNumericMsg : String := "Serial No column is not numeric"

def seqWarnMsg : String :=
  "Serial numbers are not perfectly sequential. This may indicate missing/duplicate rows."

def commaWarnMsg : String :=
  "Description contains a comma. CSV output is configured to avoid quotes; comma was replaced with a space."

def dcWarnMsg : String :=
  "Expected exactly one of Debit/Credit to be filled for a transaction."

/-- The document-level non-sequential warning. -/
def seqWarnIssue : Issue := ⟨none, Level.warning, seqWarnMsg⟩

/-- The per-row comma warning for serial `n`. -/
def commaIssue (n : Int) : Issue := ⟨some n, Level.warning, commaWarnMsg⟩

/-- `desc.replace(",", " ")`. -/
def commaRepl (cs : List Char) : List Char :=
  cs.map (fun c => if c = ',' then ' ' else c)

/-- The issues one snapshot row generates, in source order: numeric-format
checks on Debit/Credit/Balance, missing balance, debit/credit mutual
exclusion, comma in description, missing transaction date, missing value
date. -/
def perRowIssues (n : Int) (r : TxnRec) : List Issue :=
  (if validateNumeric r.debit then []
   else [⟨some n, Level.error, "Invalid numeric format in Debit: " ++ r.debit⟩]) ++
  (if validateNumeric r.credit then []
   else [⟨some n, Level.error, "Invalid numeric format in Credit: " ++ r.credit⟩]) ++
  (if validateNumeric r.balance then []
   else [⟨some n, Level.error, "Invalid numeric format in Balance: " ++ r.balance⟩]) ++
  (if r.balance = "" then [⟨some n, Level.error, "Missing Balance value"⟩] else []) ++
  (if (r.debit = "" && r.credit = "") || (r.debit ≠ "" && r.credit ≠ "") then
     [⟨some n, Level.warning, dcWarnMsg⟩] else []) ++
  (if r.description.data.contains ',' then [commaIssue n] else []) ++
  (if r.transactionDate = "" then [⟨some n, Level.error, "Missing Transaction Date"⟩] else []) ++
  (if r.valueDate = "" then [⟨some n, Level.warning, "Missing Value Date"⟩] else [])

/-- The snapshot rows over which the validation loop iterates: the frame
after `df["Serial No"] = ser`, the integer serial represented by its
decimal rendering. -/
def canonRow (r : TxnRec) (n : Int) : TxnRec := { r with serialNo := intStr n }

/-- The in-place `df.loc[df["Serial No"] == sn, "Description"] = ...`
rewrites, folded over the snapshot rows (the loop reads the snapshot taken
at `iterrows` start, so each row's comma test sees the original
description). -/
def commaFix (rows2 : List TxnRec) : List TxnRec :=
  rows2.foldl
    (fun df r =>
      if r.description.data.contains ',' then
        df.map (fun x =>
          if x.serialNo = r.serialNo then
            { x with description := ⟨commaRepl r.description.data⟩ }
          else x)
      else df)
    rows2

/-- `validation.validate_dataframe`.  The eight expected columns are
structurally present in `TxnRec`, so the missing-column short-circuit is
vacuous here; the `except` branch message elides the Python exception
text. -/
def validateDataframe (rows : List TxnRec) : List TxnRec × List Issue :=
  match traverseParse rows with
  | none => (rows, [⟨none, Level.error, notNumericMsg⟩])
  | some sers =>
    match serBounds sers with
    | none => (rows, [⟨none, Level.error, notNumericMsg⟩])
    | some (mn, mx) =>
      let seqIssues := if sers ≠ intRange mn mx then [seqWarnIssue] else []
      let rows2 := List.zipWith canonRow rows sers
      let rowIssues := (sers.zip rows).flatMap (fun p => perRowIssues p.1 p.2)
      (commaFix rows2, seqIssues ++ rowIssues)

/-! ## Trim lemmas -/

lemma trimL_cons_pos {c : Char} {cs : List Char} (h : isSpaceC c = true) :
    trimL (c :: cs) = trimL cs := by
  simp [trimL, List.dropWhile, h]

lemma trimL_cons_neg {c : Char} {cs : List Char} (h : isSpaceC c = false) :
    trimL (c :: cs) = c :: cs := by
  simp [trimL, List.dropWhile, h]

lemma trimR_cons (c : Char) (cs : List Char) :
    trimR (c :: cs) = (match trimR cs with
      | [] => if isSpaceC c then [] else [c]
      | d :: ds => c :: d :: ds) := rfl

lemma trimL_trimL (l : List Char) : trimL (trimL l) = trimL l := by
  induction l with
  | nil => rfl
  | cons c cs ih =>
    by_cases h : isSpaceC c
    · rw [trimL_cons_pos h, ih]
    · rw [trimL_cons_neg (by simpa using h), trimL_cons_neg (by simpa using h)]

lemma head_spaceC_of_trimL_fix {c : Char} {cs : List Char}
    (h : trimL (c :: cs) = c :: cs) : isSpaceC c = false := by
  cases hx : isSpaceC c with
  | false => rfl
  | true =>
    rw [trimL_cons_pos hx] at h
    have hlen := congrArg List.length h
    have hle : (trimL cs).length ≤ cs.length := by
      simpa [trimL] using (List.dropWhile_sublist isSpaceC (l := cs)).length_le
    simp at hlen
    omega

lemma trimL_trimR_of (l : List Char) (h : trimL l = l) : trimL (trimR l) = trimR l := by
  cases l with
  | nil => rfl
  | cons c cs =>
    have hc : isSpaceC c = false := head_spaceC_of_trimL_fix h
    rw [trimR_cons]
    cases htr : trimR cs with
    | nil => simp [hc, trimL_cons_neg hc]
    | cons d ds => exact trimL_cons_neg hc

lemma trimR_trimR (l : List Char) : trimR (trimR l) = trimR l := by
  induction l with
  | nil => rfl
  | cons c cs ih =>
    rw [trimR_cons]
    cases htr : trimR cs with
    | nil =>
      by_cases hc : isSpaceC c
      · simp [hc, trimR]
      · simp [hc, trimR_cons, trimR]
    | cons d ds =>
      rw [htr] at ih
      rw [trimR_cons, ih]

lemma trimC_trimC (l : List Char) : trimC (trimC l) = trimC l := by
  unfold trimC
  rw [trimL_trimR_of (trimL l) (trimL_trimL l), trimR_trimR]

lemma mem_trimR {c : Char} {l : List Char} (h : c ∈ trimR l) : c ∈ l := by
  induction l with
  | nil => simp [trimR] at h
  | cons a as ih =>
    rw [trimR_cons] at h
    cases htr : trimR as with
    | nil =>
      rw [htr] at h
      by_cases ha : isSpaceC a
      · simp [ha] at h
      · simp [ha] at h
        simp [h]
    | cons d ds =>
      rw [htr] at h ih
      rcases List.mem_cons.mp h with rfl | hrest
      · exact List.mem_cons_self _ _
      · exact List.mem_cons_of_mem _ (ih hrest)

lemma mem_trimL {c : Char} {l : List Char} (h : c ∈ trimL l) : c ∈ l :=
  (List.dropWhile_sublist isSpaceC).mem h

lemma mem_trimC {c : Char} {l : List Char} (h : c ∈ trimC l) : c ∈ l :=
  mem_trimL (mem_trimR h)

lemma trimL_eq_self_of {l : List Char} (h : ∀ c ∈ l, isSpaceC c = false) :
    trimL l = l := by
  cases l with
  | nil => rfl
  | cons c cs => exact trimL_cons_neg (h c (List.mem_cons_self _ _))

lemma trimR_eq_self_of {l : List Char} (h : ∀ c ∈ l, isSpaceC c = false) :
    trimR l = l := by
  induction l with
  | nil => rfl
  | cons c cs ih =>
    rw [trimR_cons, ih (fun x hx => h x (List.mem_cons_of_mem _ hx))]
    cases cs with
    | nil => simp [h c (List.mem_cons_self _ _)]
    | cons d ds => rfl

lemma trimC_eq_self_of {l : List Char} (h : ∀ c ∈ l, isSpaceC c = false) :
    trimC l = l := by
  unfold trimC
  rw [trimL_eq_self_of h, trimR_eq_self_of h]

/-! ## Digit and decimal-rendering lemmas -/

lemma digitC_toNat : ∀ k ≤ 9, (digitC k).toNat = 48 + k := by decide

lemma isDigitC_digitC : ∀ k ≤ 9, isDigitC (digitC k) = true := by decide

lemma isSpaceC_digitC (n : Nat) : isSpaceC (digitC n) = false := by
  match n with
  | 0 | 1 | 2 | 3 | 4 | 5 | 6 | 7 | 8 | 9 => rfl
  | k + 10 => rfl

lemma isSepC_digitC (n : Nat) : isSepC (digitC n) = false := by
  match n with
  | 0 | 1 | 2 | 3 | 4 | 5 | 6 | 7 | 8 | 9 => rfl
  | k + 10 => rfl

lemma space_toNat_lt {c : Char} (h : isSpaceC c = true) : c.toNat < 48 := by
  simp only [isSpaceC, Bool.or_eq_true, decide_eq_true_eq] at h
  rcases h with ((((rfl | rfl) | rfl) | rfl) | rfl) | rfl <;> decide

lemma digit_toNat_ge {c : Char} (h : isDigitC c = true) : 48 ≤ c.toNat := by
  simp only [isDigitC, Bool.and_eq_true, decide_eq_true_eq] at h
  exact h.1

lemma isSpaceC_of_isDigitC {c : Char} (h : isDigitC c = true) : isSpaceC c = false := by
  cases hs : isSpaceC c with
  | false => rfl
  | true => exact absurd (digit_toNat_ge h) (by have := space_toNat_lt hs; omega)

lemma digitsVal_two (a b : Char) :
    digitsVal [a, b] = 10 * (a.toNat - 48) + (b.toNat - 48) := by
  simp [digitsVal, List.foldl]

lemma digitsVal_append_one (l : List Char) (c : Char) :
    digitsVal (l ++ [c]) = 10 * digitsVal l + (c.toNat - 48) := by
  simp [digitsVal, List.foldl_append, List.foldl]

lemma natDigitsAux_zero (f : Nat) (acc : List Char) : natDigitsAux f 0 acc = acc := by
  cases f with
  | zero => rfl
  | succ f => simp [natDigitsAux]

lemma natDigitsAux_append : ∀ (f : Nat), ∀ (n : Nat) (acc : List Char),
    natDigitsAux f n acc = natDigitsAux f n [] ++ acc := by
  intro f
  induction f with
  | zero => intro n acc; rfl
  | succ f ih =>
    intro n acc
    by_cases hn : n = 0
    · subst hn
      simp [natDigitsAux]
    · rw [show natDigitsAux (f + 1) n acc =
            natDigitsAux f (n / 10) (digitC (n % 10) :: acc) from by
          simp [natDigitsAux, hn],
          show natDigitsAux (f + 1) n [] =
            natDigitsAux f (n / 10) [digitC (n % 10)] from by
          simp [natDigitsAux, hn],
          ih (n / 10) (digitC (n % 10) :: acc), ih (n / 10) [digitC (n % 10)]]
      simp

lemma natDigitsAux_fuel_irrel : ∀ (n f1 f2 : Nat) (acc : List Char),
    n ≤ f1 → n ≤ f2 → natDigitsAux f1 n acc = natDigitsAux f2 n acc := by
  intro n
  induction n using Nat.strong_induction_on with
  | _ n ih =>
    intro f1 f2 acc h1 h2
    by_cases hn : n = 0
    · subst hn
      rw [natDigitsAux_zero, natDigitsAux_zero]
    · cases f1 with
      | zero => omega
      | succ f1 =>
        cases f2 with
        | zero => omega
        | succ f2 =>
          rw [show natDigitsAux (f1 + 1) n acc =
                natDigitsAux f1 (n / 10) (digitC (n % 10) :: acc) from by
              simp [natDigitsAux, hn],
              show natDigitsAux (f2 + 1) n acc =
                natDigitsAux f2 (n / 10) (digitC (n % 10) :: acc) from by
              simp [natDigitsAux, hn]]
          exact ih (n / 10) (Nat.div_lt_self (by omega) (by norm_num)) f1 f2 _
            (by omega) (by omega)

lemma natDigits_pos_eq (m : Nat) (h : 0 < m) :
    natDigits m = natDigits (m / 10) ++ [digitC (m % 10)] ∨
    (m < 10 ∧ natDigits m = [digitC (m % 10)]) := by
  by_cases h10 : m < 10
  · right
    refine ⟨h10, ?_⟩
    have hdiv : m / 10 = 0 := Nat.div_eq_of_lt h10
    cases m with
    | zero => omega
    | succ k =>
      rw [natDigits, if_neg (Nat.succ_ne_zero k),
          show natDigitsAux (k + 1) (k + 1) [] =
            natDigitsAux k ((k + 1) / 10) [digitC ((k + 1) % 10)] from by
          simp [natDigitsAux],
          hdiv, natDigitsAux_zero]
  · left
    cases m with
    | zero => omega
    | succ k =>
      rw [natDigits, if_neg (Nat.succ_ne_zero k),
          show natDigitsAux (k + 1) (k + 1) [] =
            natDigitsAux k ((k + 1) / 10) [digitC ((k + 1) % 10)] from by
          simp [natDigitsAux],
          natDigitsAux_append, natDigits, if_neg (by omega : ¬(k + 1) / 10 = 0)]
      congr 1
      exact natDigitsAux_fuel_irrel ((k + 1) / 10) k ((k + 1) / 10) [] (by omega)
        (le_refl _)

lemma digitsVal_natDigits (m : Nat) : digitsVal (natDigits m) = m := by
  induction m using Nat.strong_induction_on with
  | _ m ih =>
    rcases Nat.eq_zero_or_pos m with rfl | hpos
    · decide
    · rcases natDigits_pos_eq m hpos with heq | ⟨hlt, heq⟩
      · have hlt10 : m / 10 < m := Nat.div_lt_self hpos (by norm_num)
        rw [heq, digitsVal_append_one, ih _ hlt10,
            digitC_toNat _ (by omega : m % 10 ≤ 9)]
        omega
      · rw [heq]
        have : digitsVal [digitC (m % 10)] = (digitC (m % 10)).toNat - 48 := by
          simp [digitsVal, List.foldl]
        rw [this, digitC_toNat _ (by omega : m % 10 ≤ 9)]
        omega

lemma natDigits_all_digit (m : Nat) : ∀ c ∈ natDigits m, isDigitC c = true := by
  induction m using Nat.strong_induction_on with
  | _ m ih =>
    rcases Nat.eq_zero_or_pos m with rfl | hpos
    · decide
    · rcases natDigits_pos_eq m hpos with heq | ⟨hlt, heq⟩
      · intro c hc
        rw [heq] at hc
        rcases List.mem_append.mp hc with hc | hc
        · exact ih _ (Nat.div_lt_self hpos (by norm_num)) c hc
        · simp at hc
          rw [hc]
          exact isDigitC_digitC _ (by omega)
      · intro c hc
        rw [heq] at hc
        simp at hc
        rw [hc]
        exact isDigitC_digitC _ (by omega)

lemma natDigits_ne_nil (m : Nat) : natDigits m ≠ [] := by
  rcases Nat.eq_zero_or_pos m with rfl | hpos
  · decide
  · rcases natDigits_pos_eq m hpos with heq | ⟨hlt, heq⟩ <;> simp [heq]

lemma intStr_data_noSpace (n : Int) : ∀ c ∈ (intStr n).data, isSpaceC c = false := by
  intro c hc
  unfold intStr at hc
  by_cases hn : n < 0
  · rw [if_pos hn] at hc
    rcases List.mem_cons.mp hc with rfl | hc
    · rfl
    · exact isSpaceC_of_isDigitC (natDigits_all_digit _ c hc)
  · rw [if_neg hn] at hc
    exact isSpaceC_of_isDigitC (natDigits_all_digit _ c hc)

lemma parseIntStr_intStr (n : Int) : parseIntStr (intStr n) = some n := by
  unfold parseIntStr
  rw [trimC_eq_self_of (intStr_data_noSpace n)]
  by_cases hn : n < 0
  · have hdata : (intStr n).data = '-' :: natDigits n.natAbs := by
      unfold intStr
      rw [if_pos hn]
    rw [hdata]
    have hne : (natDigits n.natAbs).isEmpty = false := by
      cases h : natDigits n.natAbs with
      | nil => exact absurd h (natDigits_ne_nil _)
      | cons a as => rfl
    have hall : (natDigits n.natAbs).all isDigitC = true :=
      List.all_eq_true.mpr (natDigits_all_digit _)
    simp only [parseIntCore, if_pos rfl, hne, Bool.not_false, Bool.true_and]
    rw [if_pos hall, digitsVal_natDigits, (by omega : ((n.natAbs : Int)) = -n), neg_neg]
    simp
  · have hdata : (intStr n).data = natDigits n.natAbs := by
      unfold intStr
      rw [if_neg hn]
    rw [hdata]
    cases hnd : natDigits n.natAbs with
    | nil => exact absurd hnd (natDigits_ne_nil _)
    | cons a as =>
      have ha : isDigitC a = true :=
        natDigits_all_digit _ a (by rw [hnd]; exact List.mem_cons_self _ _)
      have hane : a ≠ '-' := by
        intro h
        rw [h] at ha
        exact absurd ha (by decide)
      have hape : a ≠ '+' := by
        intro h
        rw [h] at ha
        exact absurd ha (by decide)
      have hall : (a :: as).all isDigitC = true := by
        rw [← hnd]
        exact List.all_eq_true.mpr (natDigits_all_digit _)
      simp only [parseIntCore]
      rw [if_neg hane, if_neg hape, if_pos hall,
          ← hnd, digitsVal_natDigits, (by omega : ((n.natAbs : Int)) = n)]

lemma intStr_injective {a b : Int} (h : intStr a = intStr b) : a = b := by
  have h2 := parseIntStr_intStr a
  rw [h, parseIntStr_intStr b] at h2
  exact (Option.some.inj h2).symm

lemma intStr_ne_empty (n : Int) : intStr n ≠ "" := by
  intro h
  have := congrArg String.data h
  unfold intStr at this
  by_cases hn : n < 0
  · rw [if_pos hn] at this
    simp at this
  · rw [if_neg hn] at this
    exact natDigits_ne_nil _ (by simpa using this)

/-! ## Date lemmas -/

lemma dropWhile_append_all_space {l1 l2 : List Char} (h : l1.all isSpaceC = true) :
    (l1 ++ l2).dropWhile isSpaceC = l2.dropWhile isSpaceC := by
  induction l1 with
  | nil => rfl
  | cons c cs ih =>
    simp only [List.all_cons, Bool.and_eq_true] at h
    simp only [List.cons_append, List.dropWhile, h.1]
    exact ih h.2

lemma digitsVal_four (a b c e : Char) :
    digitsVal [a, b, c, e] =
      10 * (10 * (10 * (a.toNat - 48) + (b.toNat - 48)) + (c.toNat - 48)) + (e.toNat - 48) := by
  simp [digitsVal, List.foldl]

lemma daysInMonth_le (y m : Nat) : daysInMonth y m ≤ 31 := by
  unfold daysInMonth
  split
  · split <;> omega
  · split <;> omega

lemma dateOk_bounds {d m y : Nat} (h : dateOk d m y = true) :
    d ≤ 99 ∧ m ≤ 99 ∧ y ≤ 9999 := by
  unfold dateOk at h
  simp only [Bool.and_eq_true, decide_eq_true_eq] at h
  have := daysInMonth_le y m
  omega

lemma parseDmy_padded (d m y : Nat) (sep : Char) (ws1 ws2 : List Char)
    (hsep : isSepC sep = true)
    (h1 : ws1.all isSpaceC = true) (h2 : ws2.all isSpaceC = true)
    (hd : d ≤ 99) (hm : m ≤ 99) (hy : y ≤ 9999) :
    parseDmy (ws1 ++ pad2 d ++ sep :: (pad2 m ++ sep :: (pad4 y ++ ws2))) = some (d, m, y) := by
  unfold parseDmy
  rw [List.append_assoc, dropWhile_append_all_space h1]
  have hexp : pad2 d ++ sep :: (pad2 m ++ sep :: (pad4 y ++ ws2)) =
      digitC (d / 10) :: digitC (d % 10) :: sep :: digitC (m / 10) :: digitC (m % 10) ::
      sep :: digitC (y / 1000) :: digitC (y / 100 % 10) :: digitC (y / 10 % 10) ::
      digitC (y % 10) :: ws2 := by
    simp [pad2, pad4]
  rw [hexp]
  rw [List.dropWhile_cons_of_neg (by simp [isSpaceC_digitC])]
  simp only [parseDmyCore]
  rw [if_pos]
  · rw [digitsVal_two, digitsVal_two, digitsVal_four,
        digitC_toNat _ (by omega), digitC_toNat _ (by omega),
        digitC_toNat _ (by omega), digitC_toNat _ (by omega),
        digitC_toNat _ (by omega), digitC_toNat _ (by omega),
        digitC_toNat _ (by omega), digitC_toNat _ (by omega)]
    have e1 : 10 * (48 + d / 10 - 48) + (48 + d % 10 - 48) = d := by omega
    have e2 : 10 * (48 + m / 10 - 48) + (48 + m % 10 - 48) = m := by omega
    have e3 : 10 * (10 * (10 * (48 + y / 1000 - 48) + (48 + y / 100 % 10 - 48)) +
        (48 + y / 10 % 10 - 48)) + (48 + y % 10 - 48) = y := by omega
    rw [e1, e2, e3]
  · simp only [Bool.and_eq_true]
    refine ⟨⟨⟨⟨⟨⟨⟨⟨⟨⟨?_, ?_⟩, ?_⟩, ?_⟩, ?_⟩, ?_⟩, ?_⟩, ?_⟩, ?_⟩, ?_⟩, ?_⟩
    · exact isDigitC_digitC _ (by omega)
    · exact isDigitC_digitC _ (by omega)
    · exact hsep
    · exact isDigitC_digitC _ (by omega)
    · exact isDigitC_digitC _ (by omega)
    · exact hsep
    · exact isDigitC_digitC _ (by omega)
    · exact isDigitC_digitC _ (by omega)
    · exact isDigitC_digitC _ (by omega)
    · exact isDigitC_digitC _ (by omega)
    · exact h2

lemma normalizeDate_render {d m y : Nat} (hok : dateOk d m y = true) :
    normalizeDate ⟨renderDmy d m y⟩ = some ⟨renderDmy d m y⟩ := by
  obtain ⟨hd, hm, hy⟩ := dateOk_bounds hok
  have hp : parseDmy (renderDmy d m y) = some (d, m, y) := by
    have := parseDmy_padded d m y '/' [] [] (by decide) (by decide) (by decide) hd hm hy
    simpa [renderDmy] using this
  unfold normalizeDate
  simp only [String.data]
  rw [hp]
  dsimp only
  rw [if_pos hok]

lemma normalizeDate_idem {s t : String} (h : normalizeDate s = some t) :
    normalizeDate t = some t := by
  unfold normalizeDate at h
  cases hp : parseDmy s.data with
  | none => rw [hp] at h; exact absurd h (by simp)
  | some v =>
    obtain ⟨d, m, y⟩ := v
    rw [hp] at h
    dsimp only at h
    cases hok : dateOk d m y with
    | false => rw [hok] at h; exact absurd h (by simp)
    | true =>
      rw [hok] at h
      simp only [if_true] at h
      have ht : t = ⟨renderDmy d m y⟩ := (Option.some.inj h).symm
      rw [ht]
      exact normalizeDate_render hok

/-! ## Parser step lemmas -/

lemma flushCurrent_issues (st : PState) : (flushCurrent st).issues = st.issues := by
  unfold flushCurrent
  cases st.current with
  | none => rfl
  | some r =>
    dsimp only
    split <;> rfl

lemma flushCurrent_prebuffer (st : PState) : (flushCurrent st).prebuffer = st.prebuffer := by
  unfold flushCurrent
  cases st.current with
  | none => rfl
  | some r =>
    dsimp only
    split <;> rfl

/-- The continuation update of the open record. -/
def appendDesc (r : TxnRec) (ln : List Char) : TxnRec :=
  { r with description := ⟨trimC (r.description.data ++ ' ' :: ln)⟩ }

/-- On a non-noise, non-header, non-row-start line the parser touches only
the open record's description (when a record is open) or the pre-row
buffer (when none is): rows and issues are unchanged. -/
lemma processLine_continuation (st : PState) (ln : List Char)
    (hn : isNoise ln = false) (hh : looksLikeHeaderLine ln = false)
    (hm : matchSrnoLine ln = none) :
    (st.current = none →
      processLine st ln = { st with prebuffer := st.prebuffer ++ [ln] }) ∧
    (∀ r, st.current = some r →
      processLine st ln = { st with current := some (appendDesc r ln) }) := by
  unfold processLine
  rw [hn, hh, hm]
  simp only [Bool.or_self, Bool.false_eq_true, if_false]
  constructor
  · intro hc
    rw [hc]
  · intro r hc
    rw [hc]
    rfl

/-- On a row-start line that is not an opening-balance line and whose
backward scan finds fewer than three amount tokens, the parser opens a
record whose Debit, Credit and Balance are all empty, appends the warning
for that serial number, and clears the pre-row buffer. -/
lemma processLine_short_scan (st : PState) (ln sr d1 : List Char)
    (d2 : Option (List Char)) (rest : List Char)
    (hn : isNoise ln = false) (hh : looksLikeHeaderLine ln = false)
    (hm : matchSrnoLine ln = some (sr, d1, d2, rest))
    (hob : containsSub (lowerL ln) "opening balance".data = false)
    (hlt : (splitAmounts (splitWs rest)).2.length ≠ 3) :
    ∃ rec, (processLine st ln).current = some rec ∧
      rec.debit = "" ∧ rec.credit = "" ∧ rec.balance = "" ∧
      rec.serialNo = ⟨sr⟩ ∧
      (processLine st ln).issues =
        st.issues ++ [⟨some (digitsVal sr : Int), Level.warning, amountWarnMsg⟩] ∧
      (processLine st ln).prebuffer = [] := by
  unfold processLine
  rw [hn, hh, hm]
  simp only [Bool.or_self, Bool.false_eq_true, if_false, hob]
  cases hsc : (splitAmounts (splitWs rest)).2 with
  | nil =>
    refine ⟨_, rfl, rfl, rfl, rfl, rfl, ?_, rfl⟩
    rw [flushCurrent_issues]
  | cons a tl1 =>
    cases tl1 with
    | nil =>
      refine ⟨_, rfl, rfl, rfl, rfl, rfl, ?_, rfl⟩
      rw [flushCurrent_issues]
    | cons b tl2 =>
      cases tl2 with
      | nil =>
        refine ⟨_, rfl, rfl, rfl, rfl, rfl, ?_, rfl⟩
        rw [flushCurrent_issues]
      | cons c tl3 =>
        cases tl3 with
        | nil =>
          exact absurd (by rw [hsc]; rfl : (splitAmounts (splitWs rest)).2.length = 3) hlt
        | cons e tl4 =>
          refine ⟨_, rfl, rfl, rfl, rfl, rfl, ?_, rfl⟩
          rw [flushCurrent_issues]

/-! ## Idempotence of the field cleaners on their own ranges -/

lemma mk_data_eq (l : List Char) : (⟨l⟩ : String).data = l := rfl

lemma mk_inj {a b : List Char} (h : (⟨a⟩ : String) = ⟨b⟩) : a = b := by
  have := congrArg String.data h
  simpa using this

lemma cleanDescription_idem (s : String) :
    cleanDescription (cleanDescription s) = cleanDescription s := by
  unfold cleanDescription
  rw [mk_data_eq, trimC_trimC]

lemma filter_trimC_of_filtered (q : Char → Bool) (l : List Char) :
    (trimC (l.filter q)).filter q = trimC (l.filter q) := by
  apply List.filter_eq_self.mpr
  intro a ha
  exact List.of_mem_filter (mem_trimC ha)

lemma cleanAmount_false_eq (v : String) :
    cleanAmount v false = ⟨trimC ((trimC v.data).filter notComma)⟩ := by
  simp [cleanAmount]

lemma cleanAmount_idem_false (v : String) :
    cleanAmount (cleanAmount v false) false = cleanAmount v false := by
  rw [cleanAmount_false_eq v, cleanAmount_false_eq, mk_data_eq, trimC_trimC,
      filter_trimC_of_filtered, trimC_trimC]

lemma cleanAmount_true_eq_of_dash (v : String) (hd : trimC v.data = ['-']) :
    cleanAmount v true = "" := by
  simp [cleanAmount, hd]

lemma cleanAmount_true_eq_of_not_dash (v : String) (hd : trimC v.data ≠ ['-']) :
    cleanAmount v true = ⟨trimC ((trimC v.data).filter notComma)⟩ := by
  simp [cleanAmount, hd]

lemma cleanAmount_idem_true (v : String) (h : cleanAmount v true ≠ "-") :
    cleanAmount (cleanAmount v true) true = cleanAmount v true := by
  by_cases hd : trimC v.data = ['-']
  · rw [cleanAmount_true_eq_of_dash v hd]
    decide
  · rw [cleanAmount_true_eq_of_not_dash v hd] at h ⊢
    have hne : trimC ((trimC v.data).filter notComma) ≠ ['-'] := by
      intro hx
      exact h (by rw [hx])
    have hne2 : trimC (⟨trimC ((trimC v.data).filter notComma)⟩ : String).data ≠ ['-'] := by
      rw [mk_data_eq, trimC_trimC]
      exact hne
    rw [cleanAmount_true_eq_of_not_dash _ hne2, mk_data_eq, trimC_trimC,
        filter_trimC_of_filtered, trimC_trimC]

lemma cleanChequeNumber_eq_of_empty (v : String)
    (hd : trimC v.data = ['-'] ∨ trimC v.data = []) :
    cleanChequeNumber v = "" := by
  rcases hd with h | h <;> simp [cleanChequeNumber, h]

lemma cleanChequeNumber_eq_of_main (v : String)
    (h1 : trimC v.data ≠ ['-']) (h2 : trimC v.data ≠ []) :
    cleanChequeNumber v = ⟨trimC ((trimC v.data).filter notDash)⟩ := by
  simp [cleanChequeNumber, h1, h2]

lemma cleanChequeNumber_idem (v : String) :
    cleanChequeNumber (cleanChequeNumber v) = cleanChequeNumber v := by
  by_cases hd : trimC v.data = ['-'] ∨ trimC v.data = []
  · rw [cleanChequeNumber_eq_of_empty v hd]
    decide
  · push_neg at hd
    rw [cleanChequeNumber_eq_of_main v hd.1 hd.2]
    set F := (trimC v.data).filter notDash with hF
    by_cases he : trimC F = []
    · rw [he]
      decide
    · have hnd : trimC F ≠ ['-'] := by
        intro hx
        have hm : '-' ∈ F := mem_trimC (by rw [hx]; exact List.mem_cons_self _ _)
        have := List.of_mem_filter hm
        simp [notDash] at this
      have hnd2 : trimC (⟨trimC F⟩ : String).data ≠ ['-'] := by
        rw [mk_data_eq, trimC_trimC]
        exact hnd
      have he2 : trimC (⟨trimC F⟩ : String).data ≠ [] := by
        rw [mk_data_eq, trimC_trimC]
        exact he
      rw [cleanChequeNumber_eq_of_main _ hnd2 he2, mk_data_eq, trimC_trimC, hF,
          filter_trimC_of_filtered, trimC_trimC]

lemma normalizeDate_none_str : normalizeDate "None" = none := by decide

/-! ## Sort and de-duplication lemmas -/

/-- The sort key order of `sort_values("Serial No")`. -/
def serLE (a b : CleanRec) : Prop := a.serialNo ≤ b.serialNo

lemma mem_insertBySerial {x c : CleanRec} {l : List CleanRec} :
    x ∈ insertBySerial c l ↔ x = c ∨ x ∈ l := by
  induction l with
  | nil => simp [insertBySerial]
  | cons d ds ih =>
    unfold insertBySerial
    by_cases h : c.serialNo ≤ d.serialNo
    · rw [if_pos h]
      simp only [List.mem_cons]
    · rw [if_neg h]
      simp only [List.mem_cons, ih]
      tauto

lemma mem_sortBySerial {x : CleanRec} {l : List CleanRec}
    (h : x ∈ sortBySerial l) : x ∈ l := by
  induction l with
  | nil => simp [sortBySerial] at h
  | cons c cs ih =>
    unfold sortBySerial at h
    rcases mem_insertBySerial.mp h with rfl | hm
    · exact List.mem_cons_self _ _
    · exact List.mem_cons_of_mem _ (ih hm)

lemma insertBySerial_sorted {c : CleanRec} {l : List CleanRec}
    (h : l.Pairwise serLE) : (insertBySerial c l).Pairwise serLE := by
  induction l with
  | nil => simp [insertBySerial, List.pairwise_cons]
  | cons d ds ih =>
    rw [List.pairwise_cons] at h
    unfold insertBySerial
    by_cases hle : c.serialNo ≤ d.serialNo
    · rw [if_pos hle]
      rw [List.pairwise_cons]
      refine ⟨?_, List.pairwise_cons.mpr h⟩
      intro x hx
      rcases List.mem_cons.mp hx with rfl | hx
      · exact hle
      · exact le_trans hle (h.1 x hx)
    · rw [if_neg hle]
      rw [List.pairwise_cons]
      refine ⟨?_, ih h.2⟩
      intro x hx
      rcases mem_insertBySerial.mp hx with rfl | hx
      · exact le_of_not_le hle
      · exact h.1 x hx

lemma sortBySerial_sorted (l : List CleanRec) : (sortBySerial l).Pairwise serLE := by
  induction l with
  | nil => simp [sortBySerial]
  | cons c cs ih => exact insertBySerial_sorted ih

lemma dedupeGo_sublist (l : List CleanRec) :
    ∀ seen, List.Sublist (dedupeGo seen l) l := by
  induction l with
  | nil => intro seen; simp [dedupeGo]
  | cons c cs ih =>
    intro seen
    unfold dedupeGo
    by_cases h : c.serialNo ∈ seen
    · rw [if_pos h]
      exact (ih seen).cons c
    · rw [if_neg h]
      exact (ih _).cons₂ c

lemma dedupeGo_not_seen (l : List CleanRec) :
    ∀ seen, ∀ x ∈ dedupeGo seen l, x.serialNo ∉ seen := by
  induction l with
  | nil => intro seen x hx; simp [dedupeGo] at hx
  | cons c cs ih =>
    intro seen x hx
    unfold dedupeGo at hx
    by_cases h : c.serialNo ∈ seen
    · rw [if_pos h] at hx
      exact ih seen x hx
    · rw [if_neg h] at hx
      rcases List.mem_cons.mp hx with rfl | hx
      · exact h
      · intro hmem
        exact ih _ x hx (List.mem_cons_of_mem _ hmem)

lemma dedupeGo_serials_nodup (l : List CleanRec) :
    ∀ seen, ((dedupeGo seen l).map (fun c => c.serialNo)).Nodup := by
  induction l with
  | nil => intro seen; simp [dedupeGo]
  | cons c cs ih =>
    intro seen
    unfold dedupeGo
    by_cases h : c.serialNo ∈ seen
    · rw [if_pos h]
      exact ih seen
    · rw [if_neg h]
      rw [List.map_cons, List.nodup_cons]
      refine ⟨?_, ih _⟩
      intro hmem
      rcases List.mem_map.mp hmem with ⟨x, hx, hser⟩
      exact dedupeGo_not_seen cs _ x hx (by rw [hser]; exact List.mem_cons_self _ _)

lemma sortBySerial_eq_self {l : List CleanRec} (h : l.Pairwise serLE) :
    sortBySerial l = l := by
  induction l with
  | nil => rfl
  | cons c cs ih =>
    rw [List.pairwise_cons] at h
    unfold sortBySerial
    rw [ih h.2]
    cases cs with
    | nil => rfl
    | cons d ds =>
      unfold insertBySerial
      rw [if_pos (show c.serialNo ≤ d.serialNo from h.1 d (List.mem_cons_self _ _))]

lemma dedupeGo_eq_self {l : List CleanRec}
    (hn : (l.map (fun c => c.serialNo)).Nodup) :
    ∀ seen, (∀ x ∈ l, x.serialNo ∉ seen) → dedupeGo seen l = l := by
  induction l with
  | nil => intro seen _; rfl
  | cons c cs ih =>
    intro seen hseen
    rw [List.map_cons, List.nodup_cons] at hn
    unfold dedupeGo
    rw [if_neg (hseen c (List.mem_cons_self _ _))]
    congr 1
    apply ih hn.2
    intro x hx hmem
    rcases List.mem_cons.mp hmem with heq | hmem2
    · exact hn.1 (List.mem_map.mpr ⟨x, hx, heq⟩)
    · exact hseen x (List.mem_cons_of_mem _ hx) hmem2

lemma dedupeBySerial_eq_self {l : List CleanRec}
    (hn : (l.map (fun c => c.serialNo)).Nodup) : dedupeBySerial l = l :=
  dedupeGo_eq_self hn [] (by simp)

/-! ## First-pass invariants of `_clean_and_standardize` -/

/-- What is true of every record a standardization pass emits: each field
is in the range of its cleaner, and the description is not
`opening balance`. -/
def CleanInv (c : CleanRec) : Prop :=
  (∃ v, normalizeDate v = some c.transactionDate) ∧
  (∀ t, c.valueDate = some t → ∃ v, normalizeDate v = some t) ∧
  (∃ v, c.description = cleanDescription v) ∧
  (∃ v, c.chequeNumber = cleanChequeNumber v) ∧
  (∃ v, c.debit = cleanAmount v true) ∧
  (∃ v, c.credit = cleanAmount v true) ∧
  (∃ v, c.balance = cleanAmount v false) ∧
  ¬(lowerL c.description.data = "opening balance".data)

lemma toCleanAll_mem {ms : List MidRec} {cs : List CleanRec}
    (h : toCleanAll ms = some cs) {c : CleanRec} (hc : c ∈ cs) :
    ∃ m ∈ ms, toClean m = some c := by
  induction ms generalizing cs with
  | nil =>
    unfold toCleanAll at h
    obtain rfl : ([] : List CleanRec) = cs := Option.some.inj h
    simp at hc
  | cons m ms ih =>
    unfold toCleanAll at h
    cases htc : toClean m with
    | none => rw [htc] at h; exact absurd h (by simp)
    | some c' =>
      rw [htc] at h
      cases hall : toCleanAll ms with
      | none => rw [hall] at h; exact absurd h (by simp)
      | some cs' =>
        rw [hall] at h
        obtain rfl : c' :: cs' = cs := Option.some.inj h
        rcases List.mem_cons.mp hc with rfl | hmem
        · exact ⟨m, List.mem_cons_self _ _, htc⟩
        · obtain ⟨m', hm', htc'⟩ := ih hall hmem
          exact ⟨m', List.mem_cons_of_mem _ hm', htc'⟩

lemma toClean_cleanFields_fields {r : TxnRec} {c : CleanRec}
    (h : toClean (cleanFields r) = some c) :
    normalizeDate r.transactionDate = some c.transactionDate ∧
    c.valueDate = normalizeDate r.valueDate ∧
    c.description = cleanDescription r.description ∧
    c.chequeNumber = cleanChequeNumber r.chequeNumber ∧
    c.debit = cleanAmount r.debit true ∧
    c.credit = cleanAmount r.credit true ∧
    c.balance = cleanAmount r.balance false := by
  unfold toClean cleanFields at h
  dsimp only at h
  cases hp : parseIntStr (strip r.serialNo) with
  | none => rw [hp] at h; exact absurd h (by simp)
  | some n =>
    rw [hp] at h
    cases ht : normalizeDate r.transactionDate with
    | none => rw [ht] at h; exact absurd h (by simp)
    | some t =>
      rw [ht] at h
      dsimp only at h
      obtain rfl := (Option.some.inj h).symm
      exact ⟨rfl, rfl, rfl, rfl, rfl, rfl, rfl⟩

lemma cleanAndStandardize_eq {rs : List TxnRec} {out : List CleanRec} {iss : List Issue}
    (h : cleanAndStandardize rs = some (out, iss)) :
    ∃ cs, toCleanAll ((rs.map cleanFields).filter (fun m => !isBadRow m)) = some cs ∧
      out = dedupeBySerial (sortBySerial
        (cs.filter (fun c => !(lowerL c.description.data = "opening balance".data : Bool)))) := by
  simp only [cleanAndStandardize] at h
  cases htc : toCleanAll ((rs.map cleanFields).filter (fun m => !isBadRow m)) with
  | none =>
    rw [htc] at h
    exact absurd h (by simp)
  | some cs =>
    rw [htc] at h
    dsimp only at h
    refine ⟨cs, rfl, ?_⟩
    have := Option.some.inj h
    exact (congrArg Prod.fst this).symm

lemma cleanAndStandardize_inv {rs : List TxnRec} {out : List CleanRec} {iss : List Issue}
    (h : cleanAndStandardize rs = some (out, iss)) :
    (∀ c ∈ out, CleanInv c) ∧ out.Pairwise serLE ∧
    (out.map (fun c => c.serialNo)).Nodup := by
  obtain ⟨cs, htc, hout⟩ := cleanAndStandardize_eq h
  set kept := cs.filter (fun c => !(lowerL c.description.data = "opening balance".data : Bool)) with hkept
  refine ⟨?_, ?_, ?_⟩
  · intro c hc
    rw [hout] at hc
    have hsort : c ∈ sortBySerial kept := (dedupeGo_sublist _ []).mem hc
    have hckept : c ∈ kept := mem_sortBySerial hsort
    rw [hkept] at hckept
    have hob : ¬(lowerL c.description.data = "opening balance".data) := by
      have := List.of_mem_filter hckept
      simpa using this
    have hcs : c ∈ cs := List.mem_of_mem_filter hckept
    obtain ⟨m, hm, htcm⟩ := toCleanAll_mem htc hcs
    have hmm : m ∈ rs.map cleanFields := List.mem_of_mem_filter hm
    obtain ⟨r, _, rfl⟩ := List.mem_map.mp hmm
    obtain ⟨h1, h2, h3, h4, h5, h6, h7⟩ := toClean_cleanFields_fields htcm
    exact ⟨⟨r.transactionDate, h1⟩,
           fun t ht => ⟨r.valueDate, by rw [← h2, ht]⟩,
           ⟨r.description, h3⟩, ⟨r.chequeNumber, h4⟩,
           ⟨r.debit, h5⟩, ⟨r.credit, h6⟩, ⟨r.balance, h7⟩, hob⟩
  · rw [hout]
    exact (sortBySerial_sorted kept).sublist (dedupeGo_sublist _ [])
  · rw [hout]
    exact dedupeGo_serials_nodup _ []

/-- The second-pass intermediate row of an invariant-satisfying clean
record. -/
def midOfClean (c : CleanRec) : MidRec :=
  { serialNo := intStr c.serialNo, transactionDate := some c.transactionDate,
    valueDate := c.valueDate, description := c.description,
    chequeNumber := c.chequeNumber, debit := c.debit, credit := c.credit,
    balance := c.balance }

lemma string_eta (s : String) : (⟨s.data⟩ : String) = s := rfl

lemma cleanFields_rawOfClean {c : CleanRec} (hinv : CleanInv c)
    (hd : c.debit ≠ "-") (hcr : c.credit ≠ "-") :
    cleanFields (rawOfClean c) = midOfClean c := by
  obtain ⟨⟨v1, hv1⟩, hval, ⟨v3, hv3⟩, ⟨v4, hv4⟩, ⟨v5, hv5⟩, ⟨v6, hv6⟩, ⟨v7, hv7⟩, _⟩ := hinv
  unfold cleanFields rawOfClean midOfClean
  dsimp only
  simp only [MidRec.mk.injEq]
  refine ⟨?_, ?_, ?_, ?_, ?_, ?_, ?_, ?_⟩
  · unfold strip
    rw [trimC_eq_self_of (intStr_data_noSpace c.serialNo), string_eta]
  · exact normalizeDate_idem hv1
  · cases hvd : c.valueDate with
    | none => simpa using normalizeDate_none_str
    | some t =>
      obtain ⟨v2, hv2⟩ := hval t hvd
      simpa using normalizeDate_idem hv2
  · rw [hv3, cleanDescription_idem]
  · rw [hv4, cleanChequeNumber_idem]
  · rw [hv5]
    exact cleanAmount_idem_true v5 (by rw [← hv5]; exact hd)
  · rw [hv6]
    exact cleanAmount_idem_true v6 (by rw [← hv6]; exact hcr)
  · rw [hv7, cleanAmount_idem_false]

lemma toClean_midOfClean (c : CleanRec) : toClean (midOfClean c) = some c := by
  unfold toClean midOfClean
  dsimp only
  rw [parseIntStr_intStr]

lemma toCleanAll_midOfClean (l : List CleanRec) :
    toCleanAll (l.map midOfClean) = some l := by
  induction l with
  | nil => rfl
  | cons c cs ih =>
    rw [List.map_cons]
    unfold toCleanAll
    rw [toClean_midOfClean, ih]

lemma isBadRow_midOfClean (c : CleanRec) : isBadRow (midOfClean c) = false := by
  unfold isBadRow midOfClean
  dsimp only
  simp [intStr_ne_empty]

/-- Re-standardizing an invariant-satisfying, sorted, serial-distinct
record set with no bare-dash Debit/Credit is the identity and emits no
issues. -/
lemma restandardize_eq {out : List CleanRec}
    (hinv : ∀ c ∈ out, CleanInv c)
    (hdc : ∀ c ∈ out, c.debit ≠ "-" ∧ c.credit ≠ "-")
    (hsort : out.Pairwise serLE)
    (hnd : (out.map (fun c => c.serialNo)).Nodup) :
    restandardize out = some (out, []) := by
  have hmids : (out.map rawOfClean).map cleanFields = out.map midOfClean := by
    rw [List.map_map]
    apply List.map_congr_left
    intro c hc
    exact cleanFields_rawOfClean (hinv c hc) (hdc c hc).1 (hdc c hc).2
  have hgood : (out.map midOfClean).filter (fun m => !isBadRow m) = out.map midOfClean := by
    apply List.filter_eq_self.mpr
    intro m hm
    obtain ⟨c, _, rfl⟩ := List.mem_map.mp hm
    rw [isBadRow_midOfClean]
    rfl
  have hbad : (out.map midOfClean).filter (fun m => isBadRow m) = [] := by
    apply List.filter_eq_nil_iff.mpr
    intro m hm
    obtain ⟨c, _, rfl⟩ := List.mem_map.mp hm
    rw [isBadRow_midOfClean]
    simp
  have hkeep : out.filter
      (fun c => !(lowerL c.description.data = "opening balance".data : Bool)) = out := by
    apply List.filter_eq_self.mpr
    intro c hc
    have := (hinv c hc).2.2.2.2.2.2.2
    simpa using this
  simp only [restandardize, cleanAndStandardize, hmids, hgood, hbad,
    toCleanAll_midOfClean, List.map_nil]
  rw [hkeep, sortBySerial_eq_self hsort, dedupeBySerial_eq_self hnd]

/-! ## Validation lemmas -/

lemma mem_ite {α : Type} {b : Prop} [Decidable b] {x : α} {l1 l2 : List α}
    (h : x ∈ if b then l1 else l2) : x ∈ l1 ∨ x ∈ l2 := by
  by_cases hb : b
  · rw [if_pos hb] at h
    exact Or.inl h
  · rw [if_neg hb] at h
    exact Or.inr h

lemma perRowIssues_serial (n : Int) (r : TxnRec) :
    ∀ i ∈ perRowIssues n r, i.serialNo = some n := by
  intro i hi
  unfold perRowIssues at hi
  simp only [List.mem_append] at hi
  rcases hi with ((((((hi | hi) | hi) | hi) | hi) | hi) | hi) | hi <;>
    rcases mem_ite hi with h | h <;>
    simp only [List.mem_singleton, List.not_mem_nil] at h <;>
    subst h <;> rfl

lemma validateDataframe_main {rows : List TxnRec} {sers : List Int} {mn mx : Int}
    (htp : traverseParse rows = some sers)
    (hsb : serBounds sers = some (mn, mx)) :
    validateDataframe rows =
      (commaFix (List.zipWith canonRow rows sers),
       (if sers ≠ intRange mn mx then [seqWarnIssue] else []) ++
         (sers.zip rows).flatMap (fun p => perRowIssues p.1 p.2)) := by
  unfold validateDataframe
  rw [htp]
  dsimp only
  rw [hsb]

lemma traverseParse_length {rows : List TxnRec} {sers : List Int}
    (h : traverseParse rows = some sers) : rows.length = sers.length := by
  induction rows generalizing sers with
  | nil =>
    unfold traverseParse at h
    obtain rfl := Option.some.inj h
    rfl
  | cons r rs ih =>
    unfold traverseParse at h
    cases hp : parseIntStr r.serialNo with
    | none => rw [hp] at h; exact absurd h (by simp)
    | some n =>
      rw [hp] at h
      cases ht : traverseParse rs with
      | none => rw [ht] at h; exact absurd h (by simp)
      | some ns =>
        rw [ht] at h
        obtain rfl := (Option.some.inj h).symm
        simp [ih ht]

lemma traverseParse_mem {rows : List TxnRec} {sers : List Int}
    (h : traverseParse rows = some sers) {r : TxnRec} (hr : r ∈ rows) :
    ∃ n, parseIntStr r.serialNo = some n ∧ (n, r) ∈ sers.zip rows := by
  induction rows generalizing sers with
  | nil => simp at hr
  | cons r0 rs ih =>
    unfold traverseParse at h
    cases hp : parseIntStr r0.serialNo with
    | none => rw [hp] at h; exact absurd h (by simp)
    | some n0 =>
      rw [hp] at h
      cases ht : traverseParse rs with
      | none => rw [ht] at h; exact absurd h (by simp)
      | some ns =>
        rw [ht] at h
        obtain rfl := (Option.some.inj h).symm
        rcases List.mem_cons.mp hr with rfl | hmem
        · exact ⟨n0, hp, by simp [List.zip_cons_cons]⟩
        · obtain ⟨n, hn, hz⟩ := ih ht hmem
          exact ⟨n, hn, by simp [List.zip_cons_cons, hz]⟩

lemma mem_flatMap_issues {pairs : List (Int × TxnRec)} {n : Int} {r : TxnRec}
    (hmem : (n, r) ∈ pairs) {i : Issue} (hi : i ∈ perRowIssues n r) :
    i ∈ pairs.flatMap (fun p => perRowIssues p.1 p.2) := by
  apply List.mem_flatMap.mpr
  exact ⟨(n, r), hmem, hi⟩

lemma errors_pos_of_mem {issues : List Issue} {i : Issue}
    (hmem : i ∈ issues) (herr : i.level = Level.error) :
    0 < (summarizeIssues issues).errors := by
  unfold summarizeIssues
  dsimp only
  rw [List.length_pos]
  intro hnil
  have : i ∈ issues.filter (fun j => j.level = Level.error) :=
    List.mem_filter.mpr ⟨hmem, by simp [herr]⟩
  rw [hnil] at this
  simp at this

/-! ## The in-place comma rewrite of `validate_dataframe` -/

/-- The pointwise effect of one snapshot row's `df.loc` update. -/
def updIf (r x : TxnRec) : TxnRec :=
  if r.description.data.contains ',' ∧ x.serialNo = r.serialNo then
    { x with description := ⟨commaRepl r.description.data⟩ }
  else x

/-- All snapshot updates applied to one cell row. -/
def chainUpd (snap : List TxnRec) (x : TxnRec) : TxnRec :=
  snap.foldl (fun y r => updIf r y) x

lemma commaFix_step (df : List TxnRec) (r : TxnRec) :
    (if r.description.data.contains ',' then
        df.map (fun x =>
          if x.serialNo = r.serialNo then
            { x with description := ⟨commaRepl r.description.data⟩ }
          else x)
      else df) = df.map (updIf r) := by
  by_cases hc : r.description.data.contains ',' = true
  · rw [if_pos hc]
    apply List.map_congr_left
    intro x _
    unfold updIf
    by_cases hs : x.serialNo = r.serialNo
    · rw [if_pos hs, if_pos ⟨hc, hs⟩]
    · rw [if_neg hs, if_neg (by tauto)]
  · rw [if_neg hc]
    conv_lhs => rw [← List.map_id df]
    apply List.map_congr_left
    intro x _
    unfold updIf
    rw [if_neg (by tauto)]
    rfl

lemma commaFix_eq_map : ∀ (snap df : List TxnRec),
    List.foldl
      (fun d r =>
        if r.description.data.contains ',' then
          d.map (fun x =>
            if x.serialNo = r.serialNo then
              { x with description := ⟨commaRepl r.description.data⟩ }
            else x)
        else d) df snap = df.map (chainUpd snap) := by
  intro snap
  induction snap with
  | nil =>
    intro df
    have h1 : df.map (chainUpd []) = df.map id := List.map_congr_left (fun x _ => rfl)
    rw [List.foldl_nil, h1, List.map_id]
  | cons r rs ih =>
    intro df
    rw [List.foldl_cons, commaFix_step, ih, List.map_map]
    apply List.map_congr_left
    intro x _
    rfl

lemma commaFix_chain (rows2 : List TxnRec) :
    commaFix rows2 = rows2.map (chainUpd rows2) :=
  commaFix_eq_map rows2 rows2

lemma updIf_serial (r x : TxnRec) : (updIf r x).serialNo = x.serialNo := by
  unfold updIf
  split <;> rfl

lemma chainUpd_not_mem (snap : List TxnRec) :
    ∀ x, (∀ r ∈ snap, r.serialNo ≠ x.serialNo) → chainUpd snap x = x := by
  induction snap with
  | nil => intro x _; rfl
  | cons r rs ih =>
    intro x h
    unfold chainUpd
    rw [List.foldl_cons]
    have hupd : updIf r x = x := by
      unfold updIf
      rw [if_neg]
      rintro ⟨_, hs⟩
      exact h r (List.mem_cons_self _ _) hs.symm
    rw [hupd]
    exact ih x (fun r' hr' => h r' (List.mem_cons_of_mem _ hr'))

lemma chainUpd_self {snap : List TxnRec}
    (hnd : (snap.map (fun t => t.serialNo)).Nodup) {x : TxnRec} (hx : x ∈ snap) :
    chainUpd snap x =
      if x.description.data.contains ',' then
        { x with description := ⟨commaRepl x.description.data⟩ }
      else x := by
  induction snap with
  | nil => simp at hx
  | cons r rs ih =>
    rw [List.map_cons, List.nodup_cons] at hnd
    rcases List.mem_cons.mp hx with rfl | hx2
    · unfold chainUpd
      rw [List.foldl_cons]
      by_cases hc : x.description.data.contains ',' = true
      · rw [if_pos hc]
        have hupd : updIf x x =
            { x with description := ⟨commaRepl x.description.data⟩ } := by
          unfold updIf
          rw [if_pos ⟨hc, rfl⟩]
        rw [hupd]
        apply chainUpd_not_mem
        intro r' hr' heq
        exact hnd.1 (List.mem_map.mpr ⟨r', hr', heq⟩)
      · rw [if_neg hc]
        have hupd : updIf x x = x := by
          unfold updIf
          rw [if_neg (by tauto)]
        rw [hupd]
        apply chainUpd_not_mem
        intro r' hr' heq
        exact hnd.1 (List.mem_map.mpr ⟨r', hr', heq⟩)
    · unfold chainUpd
      rw [List.foldl_cons]
      have hupd : updIf r x = x := by
        unfold updIf
        rw [if_neg]
        rintro ⟨_, hs⟩
        exact hnd.1 (List.mem_map.mpr ⟨x, hx2, hs⟩)
      rw [hupd]
      exact ih hnd.2 hx2

/-- One output row of `validate_dataframe`: the canonical integer serial
and the comma-rewritten description. -/
def validatedRow (r : TxnRec) (n : Int) : TxnRec :=
  { serialNo := intStr n, transactionDate := r.transactionDate,
    valueDate := r.valueDate,
    description :=
      if r.description.data.contains ',' then ⟨commaRepl r.description.data⟩
      else r.description,
    chequeNumber := r.chequeNumber, debit := r.debit, credit := r.credit,
    balance := r.balance }

lemma zip_serials : ∀ (rows : List TxnRec) (sers : List Int),
    rows.length = sers.length →
    (List.zipWith canonRow rows sers).map (fun t => t.serialNo) = sers.map intStr := by
  intro rows
  induction rows with
  | nil =>
    intro sers hlen
    cases sers with
    | nil => rfl
    | cons s ss => simp at hlen
  | cons r rs ih =>
    intro sers hlen
    cases sers with
    | nil => simp at hlen
    | cons s ss =>
      simp only [List.zipWith_cons_cons, List.map_cons]
      rw [ih ss (by simpa using hlen)]
      rfl

lemma commaFix_zip {rows : List TxnRec} {sers : List Int}
    (hlen : rows.length = sers.length) (hnd : sers.Nodup) :
    commaFix (List.zipWith canonRow rows sers) = List.zipWith validatedRow rows sers := by
  have hndsnap : ((List.zipWith canonRow rows sers).map (fun t => t.serialNo)).Nodup := by
    rw [zip_serials rows sers hlen]
    exact hnd.map (fun a b h => intStr_injective h)
  rw [commaFix_chain]
  have hpt : ∀ x ∈ List.zipWith canonRow rows sers,
      chainUpd (List.zipWith canonRow rows sers) x =
        if x.description.data.contains ',' then
          { x with description := ⟨commaRepl x.description.data⟩ }
        else x := fun x hx => chainUpd_self hndsnap hx
  rw [List.map_congr_left hpt]
  clear hpt hndsnap
  induction rows generalizing sers with
  | nil => cases sers <;> rfl
  | cons r rs ih =>
    cases sers with
    | nil => rfl
    | cons s ss =>
      simp only [List.zipWith_cons_cons, List.map_cons]
      rw [ih (by simpa using hlen) (by exact (List.nodup_cons.mp hnd).2)]
      congr 1
      dsimp only [canonRow]
      by_cases hc : r.description.data.contains ',' = true
      · rw [if_pos hc]
        unfold validatedRow
        rw [if_pos hc]
      · rw [if_neg hc]
        unfold validatedRow
        rw [if_neg hc]

/-! ## Counting the comma warnings -/

lemma count_ite_singleton {b : Prop} [Decidable b] {x y : Issue} (hne : y ≠ x) :
    List.count x (if b then [y] else []) = 0 := by
  by_cases hb : b
  · rw [if_pos hb]
    simp [List.count_cons, hne]
  · rw [if_neg hb]
    rfl

lemma count_ite_singleton_else {b : Prop} [Decidable b] {x y : Issue} (hne : y ≠ x) :
    List.count x (if b then [] else [y]) = 0 := by
  by_cases hb : b
  · rw [if_pos hb]
    rfl
  · rw [if_neg hb]
    simp [List.count_cons, hne]

lemma count_ite_singleton_self {b : Prop} [Decidable b] {x : Issue} :
    List.count x (if b then [x] else []) = if b then 1 else 0 := by
  by_cases hb : b
  · rw [if_pos hb, if_pos hb]
    simp
  · rw [if_neg hb, if_neg hb]
    rfl

lemma count_commaIssue_perRow_self (n : Int) (r : TxnRec) :
    List.count (commaIssue n) (perRowIssues n r) =
      if r.description.data.contains ',' then 1 else 0 := by
  unfold perRowIssues
  simp only [List.count_append]
  rw [count_ite_singleton_else (by simp [commaIssue]),
      count_ite_singleton_else (by simp [commaIssue]),
      count_ite_singleton_else (by simp [commaIssue]),
      count_ite_singleton (by simp [commaIssue]),
      count_ite_singleton (x := commaIssue n)
        (by simp [commaIssue, dcWarnMsg, commaWarnMsg]),
      count_ite_singleton_self,
      count_ite_singleton (by simp [commaIssue]),
      count_ite_singleton (x := commaIssue n) (by simp [commaIssue, commaWarnMsg])]
  omega

lemma count_commaIssue_perRow_other {n m : Int} (hne : m ≠ n) (r : TxnRec) :
    List.count (commaIssue n) (perRowIssues m r) = 0 := by
  have hser : (some m : Option Int) ≠ some n := by simpa using hne
  unfold perRowIssues
  simp only [List.count_append]
  rw [count_ite_singleton_else (by simp [commaIssue, hser]),
      count_ite_singleton_else (by simp [commaIssue, hser]),
      count_ite_singleton_else (by simp [commaIssue, hser]),
      count_ite_singleton (by simp [commaIssue, hser]),
      count_ite_singleton (by simp [commaIssue, hser]),
      count_ite_singleton (by simp [commaIssue, hser]),
      count_ite_singleton (by simp [commaIssue, hser]),
      count_ite_singleton (by simp [commaIssue, hser])]

lemma count_commaIssue_flatMap_not_mem (n : Int) :
    ∀ pairs : List (Int × TxnRec), n ∉ pairs.map Prod.fst →
    List.count (commaIssue n) (pairs.flatMap (fun p => perRowIssues p.1 p.2)) = 0 := by
  intro pairs
  induction pairs with
  | nil => intro _; rfl
  | cons p ps ih =>
    intro h
    rw [List.map_cons] at h
    rw [List.flatMap_cons, List.count_append,
        count_commaIssue_perRow_other (fun he => h (by rw [he]; exact List.mem_cons_self _ _)),
        ih (fun hm => h (List.mem_cons_of_mem _ hm))]

lemma count_commaIssue_flatMap {n : Int} {r : TxnRec} :
    ∀ pairs : List (Int × TxnRec), (pairs.map Prod.fst).Nodup → (n, r) ∈ pairs →
    List.count (commaIssue n) (pairs.flatMap (fun p => perRowIssues p.1 p.2)) =
      if r.description.data.contains ',' then 1 else 0 := by
  intro pairs
  induction pairs with
  | nil => intro _ hmem; simp at hmem
  | cons p ps ih =>
    intro hnd hmem
    rw [List.map_cons, List.nodup_cons] at hnd
    rw [List.flatMap_cons, List.count_append]
    rcases List.mem_cons.mp hmem with heq | hmem2
    · have h1 : p.1 = n := by rw [← heq]
      have h2 : p.2 = r := by rw [← heq]
      rw [h1, h2, count_commaIssue_perRow_self,
          count_commaIssue_flatMap_not_mem n ps (h1 ▸ hnd.1), Nat.add_zero]
    · have hne : p.1 ≠ n := by
        intro he
        exact hnd.1 (by rw [he]; exact List.mem_map.mpr ⟨(n, r), hmem2, rfl⟩)
      rw [count_commaIssue_perRow_other hne, ih hnd.2 hmem2]
      omega

lemma count_commaIssue_seq (n : Int) {b : Prop} [Decidable b] :
    List.count (commaIssue n) (if b then [seqWarnIssue] else []) = 0 :=
  count_ite_singleton (by simp [commaIssue, seqWarnIssue])

/-! ## Remaining helpers for the claim theorems -/

lemma serBounds_of_ne_nil {sers : List Int} (h : sers ≠ []) :
    ∃ mn mx, serBounds sers = some (mn, mx) := by
  cases sers with
  | nil => exact absurd rfl h
  | cons s ss => exact ⟨_, _, rfl⟩

lemma traverseParse_none_of_mem {rows : List TxnRec} {r : TxnRec}
    (hr : r ∈ rows) (hp : parseIntStr r.serialNo = none) :
    traverseParse rows = none := by
  induction rows with
  | nil => simp at hr
  | cons r0 rs ih =>
    unfold traverseParse
    rcases List.mem_cons.mp hr with rfl | hmem
    · rw [hp]
    · cases hp0 : parseIntStr r0.serialNo with
      | none => rfl
      | some n0 => rw [ih hmem]

lemma mem_perRow_balance (n : Int) (r : TxnRec) (hb : r.balance = "") :
    (⟨some n, Level.error, "Missing Balance value"⟩ : Issue) ∈ perRowIssues n r := by
  unfold perRowIssues
  simp only [List.mem_append]
  have hD : (⟨some n, Level.error, "Missing Balance value"⟩ : Issue) ∈
      (if r.balance = "" then
        [(⟨some n, Level.error, "Missing Balance value"⟩ : Issue)] else []) := by
    rw [if_pos hb]
    exact List.mem_singleton.mpr rfl
  exact Or.inl (Or.inl (Or.inl (Or.inl (Or.inr hD))))

lemma validate_doc_filter {rows : List TxnRec} {sers : List Int} {mn mx : Int}
    (htp : traverseParse rows = some sers)
    (hsb : serBounds sers = some (mn, mx))
    (hne : sers ≠ intRange mn mx) :
    (validateDataframe rows).2.filter (fun i => i.serialNo.isNone) = [seqWarnIssue] := by
  rw [validateDataframe_main htp hsb]
  dsimp only
  rw [if_pos hne, List.filter_append]
  have h1 : [seqWarnIssue].filter (fun i => i.serialNo.isNone) = [seqWarnIssue] := rfl
  have h2 : ((sers.zip rows).flatMap fun p => perRowIssues p.1 p.2).filter
      (fun i => i.serialNo.isNone) = [] := by
    apply List.filter_eq_nil_iff.mpr
    intro i hi
    obtain ⟨p, hp, hip⟩ := List.mem_flatMap.mp hi
    have := perRowIssues_serial p.1 p.2 i hip
    simp [this]
  rw [h1, h2, List.append_nil]

/-! ## The claims -/

/-- C1 (counterexample): on the page text
`"1 01-01-2024 AB 2.00 3.00"` the backward scan finds two amount tokens
(fewer than three), and the parser emits the warning for serial 1 — but
the emitted record has Debit, Credit and Balance all empty: the found
tokens `2.00` and `3.00` populate no field, contradicting the claim that
the fields found are still populated. -/
theorem claim_C1_counterexample :
    (splitAmounts (splitWs "AB 2.00 3.00".data)).2 = ["2.00".data, "3.00".data] ∧
    extractFromText "1 01-01-2024 AB 2.00 3.00" =
      ([⟨"1", "01-01-2024", "", "AB", "", "", "", ""⟩],
       [⟨some 1, Level.warning, amountWarnMsg⟩]) := by
  decide

/-- C1 (amended): for every row-start line whose backward scan finds fewer
than three trailing amount tokens, `_extract_from_text` emits the warning
for that serial number, leaves the opened record's Debit, Credit and
Balance ALL empty (the amount tokens that were found are discarded), and
clears the pre-row buffer. -/
theorem claim_C1_amended (st : PState) (ln sr d1 : List Char)
    (d2 : Option (List Char)) (rest : List Char)
    (hn : isNoise ln = false) (hh : looksLikeHeaderLine ln = false)
    (hm : matchSrnoLine ln = some (sr, d1, d2, rest))
    (hob : containsSub (lowerL ln) "opening balance".data = false)
    (hlt : (splitAmounts (splitWs rest)).2.length ≠ 3) :
    ∃ rec, (processLine st ln).current = some rec ∧
      rec.debit = "" ∧ rec.credit = "" ∧ rec.balance = "" ∧
      rec.serialNo = ⟨sr⟩ ∧
      (processLine st ln).issues =
        st.issues ++ [⟨some (digitsVal sr : Int), Level.warning, amountWarnMsg⟩] ∧
      (processLine st ln).prebuffer = [] :=
  processLine_short_scan st ln sr d1 d2 rest hn hh hm hob hlt

/-- C1 (witness): the amended claim instantiated on the counterexample
line. -/
theorem claim_C1_witness :
    ∃ rec, (processLine ⟨[], [], none, []⟩ "1 01-01-2024 AB 2.00 3.00".data).current = some rec ∧
      rec.debit = "" ∧ rec.credit = "" ∧ rec.balance = "" ∧
      rec.serialNo = ⟨"1".data⟩ ∧
      (processLine ⟨[], [], none, []⟩ "1 01-01-2024 AB 2.00 3.00".data).issues =
        ([] : List Issue) ++ [⟨some (digitsVal "1".data : Int), Level.warning, amountWarnMsg⟩] ∧
      (processLine ⟨[], [], none, []⟩ "1 01-01-2024 AB 2.00 3.00".data).prebuffer = [] :=
  claim_C1_amended ⟨[], [], none, []⟩ "1 01-01-2024 AB 2.00 3.00".data
    "1".data "01-01-2024".data none "AB 2.00 3.00".data
    (by decide) (by decide) (by decide) (by decide) (by decide)

/-- C2 (counterexample): the page text `"HELLO WORLD"` consists of a
single non-noise, non-header, non-row-start description line, yet the
parser emits no record at all: the line is attached to no record, refuting
the claim that every such line is attached to exactly one emitted
record. -/
theorem claim_C2_counterexample :
    isNoise "HELLO WORLD".data = false ∧
    looksLikeHeaderLine "HELLO WORLD".data = false ∧
    matchSrnoLine "HELLO WORLD".data = none ∧
    linesOf "HELLO WORLD" = ["HELLO WORLD".data] ∧
    extractFromText "HELLO WORLD" = ([], []) := by
  decide

/-- C2 (amended): a non-noise, non-header, non-row-start line is routed to
exactly one of the two buffers — appended to the open record's description
when a record is open, and otherwise appended to the pre-row buffer for
the next row-start record — and changes neither the emitted rows nor the
issues.  (Buffered lines followed by no row-start line on the page, or
owned by an opening-balance row, are discarded rather than attached to a
record.) -/
theorem claim_C2_amended (st : PState) (ln : List Char)
    (hn : isNoise ln = false) (hh : looksLikeHeaderLine ln = false)
    (hm : matchSrnoLine ln = none) :
    (st.current = none →
      processLine st ln = { st with prebuffer := st.prebuffer ++ [ln] }) ∧
    (∀ r, st.current = some r →
      processLine st ln = { st with current := some (appendDesc r ln) }) :=
  processLine_continuation st ln hn hh hm

/-- C2 (witness): the amended claim instantiated on the counterexample
line and the empty start state. -/
theorem claim_C2_witness :
    ((⟨[], [], none, []⟩ : PState).current = none →
      processLine ⟨[], [], none, []⟩ "HELLO WORLD".data =
        { (⟨[], [], none, []⟩ : PState) with prebuffer := [] ++ ["HELLO WORLD".data] }) ∧
    (∀ r, (⟨[], [], none, []⟩ : PState).current = some r →
      processLine ⟨[], [], none, []⟩ "HELLO WORLD".data =
        { (⟨[], [], none, []⟩ : PState) with current := some (appendDesc r "HELLO WORLD".data) }) :=
  claim_C2_amended ⟨[], [], none, []⟩ "HELLO WORLD".data
    (by decide) (by decide) (by decide)

/-- C3 (counterexample): the record set obtained by standardizing a raw
row whose Debit is `",-,"` has Debit `"-"`; a second standardization pass
maps that Debit to the empty string, so the second pass is not the
identity on this output of `_clean_and_standardize`. -/
theorem claim_C3_counterexample :
    cleanAndStandardize [⟨"1", "01-01-2024", "", "X", "", ",-,", "", "1.00"⟩] =
      some ([⟨1, "01/01/2024", none, "X", "", "-", "", "1.00"⟩], []) ∧
    restandardize [⟨1, "01/01/2024", none, "X", "", "-", "", "1.00"⟩] =
      some ([⟨1, "01/01/2024", none, "X", "", "", "", "1.00"⟩], []) ∧
    (⟨1, "01/01/2024", none, "X", "", "", "", "1.00"⟩ : CleanRec) ≠
      ⟨1, "01/01/2024", none, "X", "", "-", "", "1.00"⟩ := by
  decide

/-- C3 (amended): for every record set that is the output of
`_clean_and_standardize` and in which no record's Debit or Credit equals
the literal `"-"`, applying `_clean_and_standardize` a second time returns
the identical record set — dates, amounts, cheque numbers and
descriptions unchanged, no row dropped and no issue emitted. -/
theorem claim_C3_amended (rs : List TxnRec) (out : List CleanRec) (iss : List Issue)
    (h : cleanAndStandardize rs = some (out, iss))
    (hdc : ∀ c ∈ out, c.debit ≠ "-" ∧ c.credit ≠ "-") :
    restandardize out = some (out, []) := by
  obtain ⟨hinv, hsort, hnd⟩ := cleanAndStandardize_inv h
  exact restandardize_eq hinv hdc hsort hnd

/-- C3 (witness): the amended claim instantiated on a one-row record
set. -/
theorem claim_C3_witness :
    restandardize [⟨7, "02/01/2024", some "02/01/2024", "POS PURCHASE", "", "5.00", "", "95.00"⟩] =
      some ([⟨7, "02/01/2024", some "02/01/2024", "POS PURCHASE", "", "5.00", "", "95.00"⟩], []) :=
  claim_C3_amended
    [⟨"7", "02-01-2024", "02-01-2024", "POS PURCHASE", "", "5.00", "", "95.00"⟩]
    [⟨7, "02/01/2024", some "02/01/2024", "POS PURCHASE", "", "5.00", "", "95.00"⟩]
    [] (by decide) (by decide)

/-- C5: on the page text
`"ATM WITHDRAWAL\n2 02-01-2024 02-01-2024 500.00 - 400.00"` the fallback
parser emits exactly one record and no issue; the record has serial
number 2, description `ATM WITHDRAWAL`, Debit `500.00` and Balance
`400.00`, and its Credit (the dash token) cleans to empty under
`clean_amount`. -/
theorem claim_C5_text_fallback_example :
    (extractFromText "ATM WITHDRAWAL\n2 02-01-2024 02-01-2024 500.00 - 400.00").1.map
        (fun r => (parseIntStr r.serialNo, r.description,
                   cleanAmount r.debit true, cleanAmount r.credit true,
                   cleanAmount r.balance false)) =
      [(some 2, "ATM WITHDRAWAL", "500.00", "", "400.00")] ∧
    (extractFromText "ATM WITHDRAWAL\n2 02-01-2024 02-01-2024 500.00 - 400.00").2 = [] := by
  decide

/-- C6: if some row of the validated record set has an empty Balance (and
the serial column casts, so per-row validation runs), then
`validate_dataframe` emits an error-level `Missing Balance value` issue
carrying that row's serial number, and for any accompanying extraction
issues the combined summary has `errors > 0`, which makes the `app.py`
export gate refuse export. -/
theorem claim_C6_missing_balance_blocks_export
    (rows : List TxnRec) (sers : List Int) (r : TxnRec) (ext : List Issue)
    (htp : traverseParse rows = some sers) (hr : r ∈ rows) (hb : r.balance = "") :
    ∃ n, parseIntStr r.serialNo = some n ∧
      (⟨some n, Level.error, "Missing Balance value"⟩ : Issue) ∈ (validateDataframe rows).2 ∧
      0 < (summarizeIssues (ext ++ (validateDataframe rows).2)).errors ∧
      exportAllowed (summarizeIssues (ext ++ (validateDataframe rows).2)) = false := by
  obtain ⟨n, hp, hz⟩ := traverseParse_mem htp hr
  have hsne : sers ≠ [] := by
    intro h0
    rw [h0] at hz
    simp at hz
  obtain ⟨mn, mx, hsb⟩ := serBounds_of_ne_nil hsne
  have hmem : (⟨some n, Level.error, "Missing Balance value"⟩ : Issue) ∈
      (validateDataframe rows).2 := by
    rw [validateDataframe_main htp hsb]
    dsimp only
    exact List.mem_append_right _ (mem_flatMap_issues hz (mem_perRow_balance n r hb))
  have herr := errors_pos_of_mem (List.mem_append_right ext hmem) rfl
  refine ⟨n, hp, hmem, herr, ?_⟩
  unfold exportAllowed
  simp [herr]

/-- C6 (witness): a one-row record set with empty Balance. -/
theorem claim_C6_witness :
    ∃ n, parseIntStr (⟨"1", "01/01/2024", "01/01/2024", "A", "", "5.00", "", ""⟩ : TxnRec).serialNo = some n ∧
      (⟨some n, Level.error, "Missing Balance value"⟩ : Issue) ∈
        (validateDataframe [⟨"1", "01/01/2024", "01/01/2024", "A", "", "5.00", "", ""⟩]).2 ∧
      0 < (summarizeIssues ([] ++
        (validateDataframe [⟨"1", "01/01/2024", "01/01/2024", "A", "", "5.00", "", ""⟩]).2)).errors ∧
      exportAllowed (summarizeIssues ([] ++
        (validateDataframe [⟨"1", "01/01/2024", "01/01/2024", "A", "", "5.00", "", ""⟩]).2)) = false :=
  claim_C6_missing_balance_blocks_export
    [⟨"1", "01/01/2024", "01/01/2024", "A", "", "5.00", "", ""⟩] [1]
    ⟨"1", "01/01/2024", "01/01/2024", "A", "", "5.00", "", ""⟩ []
    (by decide) (by decide) (by decide)

/-- C7: whenever the parsed serial numbers are not exactly the gap-free
ascending run from their minimum to their maximum, the issue list of
`validate_dataframe` contains exactly one document-level issue
(`serial_no` null), and it is the non-sequential warning — no per-row
issue carries a null serial. -/
theorem claim_C7_nonsequential_single_warning
    (rows : List TxnRec) (sers : List Int) (mn mx : Int)
    (htp : traverseParse rows = some sers)
    (hsb : serBounds sers = some (mn, mx))
    (hne : sers ≠ intRange mn mx) :
    (validateDataframe rows).2.filter (fun i => i.serialNo.isNone) = [seqWarnIssue] ∧
    seqWarnIssue = ⟨none, Level.warning, seqWarnMsg⟩ :=
  ⟨validate_doc_filter htp hsb hne, rfl⟩

/-- C7 (witness): serial numbers `[1, 2, 4]` yield exactly the one
non-sequential warning as document-level issue. -/
theorem claim_C7_witness :
    (validateDataframe
      [⟨"1", "01/01/2024", "01/01/2024", "A", "", "5.00", "", "100.00"⟩,
       ⟨"2", "02/01/2024", "02/01/2024", "B", "", "", "3.00", "97.00"⟩,
       ⟨"4", "03/01/2024", "03/01/2024", "C", "", "", "1.00", "96.00"⟩]).2.filter
      (fun i => i.serialNo.isNone) = [seqWarnIssue] ∧
    seqWarnIssue = ⟨none, Level.warning, seqWarnMsg⟩ :=
  claim_C7_nonsequential_single_warning
    [⟨"1", "01/01/2024", "01/01/2024", "A", "", "5.00", "", "100.00"⟩,
     ⟨"2", "02/01/2024", "02/01/2024", "B", "", "", "3.00", "97.00"⟩,
     ⟨"4", "03/01/2024", "03/01/2024", "C", "", "", "1.00", "96.00"⟩]
    [1, 2, 4] 1 4 (by decide) (by decide) (by decide)

/-- C8: with castable, pairwise-distinct serial numbers, the record set
returned by `validate_dataframe` keeps every row in order, rewriting
exactly the descriptions that contain a comma (every comma becomes a
space) and leaving the rest unchanged; and each row receives exactly one
comma warning if its description contains a comma and none otherwise. -/
theorem claim_C8_comma_description
    (rows : List TxnRec) (sers : List Int) (n : Int) (r : TxnRec)
    (htp : traverseParse rows = some sers) (hnd : sers.Nodup)
    (hmem : (n, r) ∈ sers.zip rows) :
    (validateDataframe rows).1 = List.zipWith validatedRow rows sers ∧
    List.count (commaIssue n) (validateDataframe rows).2 =
      (if r.description.data.contains ',' then 1 else 0) := by
  have hsne : sers ≠ [] := by
    intro h0
    rw [h0] at hmem
    simp at hmem
  obtain ⟨mn, mx, hsb⟩ := serBounds_of_ne_nil hsne
  rw [validateDataframe_main htp hsb]
  dsimp only
  constructor
  · exact commaFix_zip (traverseParse_length htp) hnd
  · rw [List.count_append, count_commaIssue_seq, Nat.zero_add]
    exact count_commaIssue_flatMap (sers.zip rows)
      (by rw [List.map_fst_zip sers rows (le_of_eq (traverseParse_length htp).symm)]
          exact hnd)
      hmem

/-- C8 (witness): a comma row is kept with the comma replaced by a space
and gets exactly one comma warning. -/
theorem claim_C8_witness :
    (validateDataframe
      [⟨"1", "01/01/2024", "01/01/2024", "A, B", "", "5.00", "", "100.00"⟩,
       ⟨"2", "02/01/2024", "02/01/2024", "C", "", "", "3.00", "97.00"⟩]).1 =
      List.zipWith validatedRow
        [⟨"1", "01/01/2024", "01/01/2024", "A, B", "", "5.00", "", "100.00"⟩,
         ⟨"2", "02/01/2024", "02/01/2024", "C", "", "", "3.00", "97.00"⟩] [1, 2] ∧
    List.count (commaIssue 1)
      (validateDataframe
        [⟨"1", "01/01/2024", "01/01/2024", "A, B", "", "5.00", "", "100.00"⟩,
         ⟨"2", "02/01/2024", "02/01/2024", "C", "", "", "3.00", "97.00"⟩]).2 =
      (if ("A, B" : String).data.contains ',' then 1 else 0) :=
  claim_C8_comma_description
    [⟨"1", "01/01/2024", "01/01/2024", "A, B", "", "5.00", "", "100.00"⟩,
     ⟨"2", "02/01/2024", "02/01/2024", "C", "", "", "3.00", "97.00"⟩]
    [1, 2] 1 ⟨"1", "01/01/2024", "01/01/2024", "A, B", "", "5.00", "", "100.00"⟩
    (by decide) (by decide) (by decide)

/-- C9: every `DD-MM-YYYY` or `DD/MM/YYYY` input (optional surrounding
whitespace) denoting a real calendar date normalizes to that date rendered
`DD/MM/YYYY` with a literal slash, and `normalize_date` is idempotent on
that output. -/
theorem claim_C9_normalize_date_canonical (d m y : Nat) (sep : Char) (ws1 ws2 : List Char)
    (hsep : sep = '-' ∨ sep = '/')
    (h1 : ws1.all isSpaceC = true) (h2 : ws2.all isSpaceC = true)
    (hok : dateOk d m y = true) :
    normalizeDate ⟨ws1 ++ pad2 d ++ sep :: (pad2 m ++ sep :: (pad4 y ++ ws2))⟩ =
      some ⟨renderDmy d m y⟩ ∧
    normalizeDate ⟨renderDmy d m y⟩ = some ⟨renderDmy d m y⟩ := by
  obtain ⟨hd, hm, hy⟩ := dateOk_bounds hok
  have hsep2 : isSepC sep = true := by rcases hsep with rfl | rfl <;> rfl
  refine ⟨?_, normalizeDate_render hok⟩
  unfold normalizeDate
  rw [mk_data_eq, parseDmy_padded d m y sep ws1 ws2 hsep2 h1 h2 hd hm hy]
  dsimp only
  rw [if_pos hok]

/-- C9 (witness): the claim instantiated on `05-01-2024`. -/
theorem claim_C9_witness :
    dateOk 5 1 2024 = true ∧
    normalizeDate ⟨([] : List Char) ++ pad2 5 ++ '-' :: (pad2 1 ++ '-' :: (pad4 2024 ++ []))⟩ =
      some ⟨renderDmy 5 1 2024⟩ ∧
    normalizeDate ⟨renderDmy 5 1 2024⟩ = some ⟨renderDmy 5 1 2024⟩ :=
  ⟨by decide,
   (claim_C9_normalize_date_canonical 5 1 2024 '-' [] []
     (Or.inl rfl) (by decide) (by decide) (by decide)).1,
   (claim_C9_normalize_date_canonical 5 1 2024 '-' [] []
     (Or.inl rfl) (by decide) (by decide) (by decide)).2⟩

/-- C10: if any row's Serial No cannot be cast to an integer,
`validate_dataframe` returns the frame unchanged with exactly one
additional issue — the document-level `Serial No column is not numeric`
error — and performs no per-row check. -/
theorem claim_C10_nonnumeric_serial_early_return
    (rows : List TxnRec) (r : TxnRec) (hr : r ∈ rows)
    (hp : parseIntStr r.serialNo = none) :
    validateDataframe rows = (rows, [⟨none, Level.error, notNumericMsg⟩]) := by
  unfold validateDataframe
  rw [traverseParse_none_of_mem hr hp]

/-- C10 (witness): a record set with a non-numeric serial. -/
theorem claim_C10_witness :
    validateDataframe
      [⟨"abc", "01/01/2024", "01/01/2024", "A", "", "", "", ""⟩] =
      ([⟨"abc", "01/01/2024", "01/01/2024", "A", "", "", "", ""⟩],
       [⟨none, Level.error, notNumericMsg⟩]) :=
  claim_C10_nonnumeric_serial_early_return
    [⟨"abc", "01/01/2024", "01/01/2024", "A", "", "", "", ""⟩]
    ⟨"abc", "01/01/2024", "01/01/2024", "A", "", "", "", ""⟩
    (by decide) (by decide)

end FEA
